import Mathlib

/-
Verification of the carpet mesh-generation core
(src/model_generation/model_generation/generate_model.py).

The development shallowly embeds the mesh builder
(create_subdivided_plane), the height-field displacement
(apply_displacement), the tangent computation (compute_tangents) and the
binary-buffer assembly of export_glb_with_pygltflib.  Geometry is
modelled over the real numbers; byte buffers over lists of naturals.
-/

set_option maxHeartbeats 1000000

open Classical

/-- Three-component vector over the reals, mirroring the (x, y, z) rows of
the numpy arrays used by the mesh pipeline. -/
structure Vec3 where
  x : ℝ
  y : ℝ
  z : ℝ

theorem Vec3.ext_iff' (a b : Vec3) : a = b ↔ a.x = b.x ∧ a.y = b.y ∧ a.z = b.z := by
  constructor
  · intro h; cases h; exact ⟨rfl, rfl, rfl⟩
  · rintro ⟨h1, h2, h3⟩; cases a; cases b; simp_all

/-- Zero vector (numpy zeros row). -/
noncomputable def vzero : Vec3 := ⟨0, 0, 0⟩

/-- Componentwise vector addition. -/
noncomputable def vadd (a b : Vec3) : Vec3 := ⟨a.x + b.x, a.y + b.y, a.z + b.z⟩

/-- Componentwise vector subtraction. -/
noncomputable def vsub (a b : Vec3) : Vec3 := ⟨a.x - b.x, a.y - b.y, a.z - b.z⟩

/-- Scalar multiplication of a vector. -/
noncomputable def smul3 (s : ℝ) (v : Vec3) : Vec3 := ⟨s * v.x, s * v.y, s * v.z⟩

/-- Division of a vector by a scalar (numpy vector / scalar). -/
noncomputable def vdiv (v : Vec3) (s : ℝ) : Vec3 := ⟨v.x / s, v.y / s, v.z / s⟩

/-- Euclidean dot product. -/
noncomputable def dot3 (a b : Vec3) : ℝ := a.x * b.x + a.y * b.y + a.z * b.z

/-- Cross product (np.cross). -/
noncomputable def cross3 (a b : Vec3) : Vec3 :=
  ⟨a.y * b.z - a.z * b.y, a.z * b.x - a.x * b.z, a.x * b.y - a.y * b.x⟩

/-- Euclidean length (np.linalg.norm). -/
noncomputable def norm3 (v : Vec3) : ℝ := Real.sqrt (dot3 v v)

/-
Mesh builder: create_subdivided_plane (generate_model.py lines 101-156).
The grid has `subdivisions` samples per side; vertex k sits at grid row
i = k / S (the z / v direction) and column j = k % S (the x / u
direction), matching numpy meshgrid + flatten in row-major order.
-/

/-- Vertex k of the subdivided plane: x from np.linspace(-width/2, width/2, S)
at column k % S, y = 0, z from np.linspace(-height/2, height/2, S) at row
k / S. -/
noncomputable def plane_vertex (width height : ℝ) (S k : ℕ) : Vec3 :=
  ⟨-(width / 2) + width * (k % S : ℕ) / ((S : ℝ) - 1),
   0,
   -(height / 2) + height * (k / S : ℕ) / ((S : ℝ) - 1)⟩

/-- Vertex array of create_subdivided_plane: S*S vertices in row-major order. -/
noncomputable def create_plane_vertices (width height : ℝ) (S : ℕ) : List Vec3 :=
  (List.range (S * S)).map (plane_vertex width height S)

/-- UV coordinate of vertex k: u = j/(S-1), v stored flipped as
1 - i/(S-1) (generate_model.py line 137). -/
noncomputable def plane_uv (S k : ℕ) : ℝ × ℝ :=
  ((k % S : ℕ) / ((S : ℝ) - 1), 1 - (k / S : ℕ) / ((S : ℝ) - 1))

/-- UV array of create_subdivided_plane. -/
noncomputable def create_plane_uvs (S : ℕ) : List (ℝ × ℝ) :=
  (List.range (S * S)).map (plane_uv S)

/-- The two triangles emitted for the grid quad with lower-left corner at
row i, column j (generate_model.py lines 150-152). -/
def quad_faces (S i j : ℕ) : List (ℕ × ℕ × ℕ) :=
  [(i * S + j, i * S + j + S, i * S + j + 1),
   (i * S + j + 1, i * S + j + S, i * S + j + S + 1)]

/-- Face array of create_subdivided_plane: the nested loop over
i, j < subdivisions - 1, two triangles per quad. -/
def create_plane_faces (S : ℕ) : List (ℕ × ℕ × ℕ) :=
  (List.range (S - 1)).flatMap (fun i =>
    (List.range (S - 1)).flatMap (fun j => quad_faces S i j))

/-- create_subdivided_plane returns (vertices, faces, uvs). -/
noncomputable def create_subdivided_plane (width height : ℝ) (S : ℕ) :
    List Vec3 × List (ℕ × ℕ × ℕ) × List (ℝ × ℝ) :=
  (create_plane_vertices width height S, create_plane_faces S, create_plane_uvs S)

theorem create_plane_faces_length (S : ℕ) :
    (create_plane_faces S).length = 2 * (S - 1) ^ 2 := by
  unfold create_plane_faces
  rw [List.length_flatMap]
  have hinner : ∀ i : ℕ,
      ((List.range (S - 1)).flatMap (fun j => quad_faces S i j)).length = 2 * (S - 1) := by
    intro i
    rw [List.length_flatMap]
    have : (List.map (List.length ∘ fun j => quad_faces S i j) (List.range (S - 1)))
        = List.replicate (S - 1) 2 := by
      rw [show (List.length ∘ fun j => quad_faces S i j) = fun _ => 2 from rfl]
      rw [List.map_const', List.length_range]
    rw [this, List.sum_replicate, smul_eq_mul, Nat.mul_comm]
  have : (List.map (List.length ∘ fun i =>
      (List.range (S - 1)).flatMap fun j => quad_faces S i j) (List.range (S - 1)))
      = List.replicate (S - 1) (2 * (S - 1)) := by
    rw [show (List.length ∘ fun i => (List.range (S - 1)).flatMap fun j => quad_faces S i j)
        = fun i => ((List.range (S - 1)).flatMap fun j => quad_faces S i j).length from rfl]
    rw [List.map_congr_left (fun i _ => hinner i), List.map_const', List.length_range]
  rw [this, List.sum_replicate, smul_eq_mul]
  ring

theorem mem_create_plane_faces {S : ℕ} {f : ℕ × ℕ × ℕ} (hf : f ∈ create_plane_faces S) :
    ∃ i j, i < S - 1 ∧ j < S - 1 ∧
      (f = (i * S + j, i * S + j + S, i * S + j + 1) ∨
       f = (i * S + j + 1, i * S + j + S, i * S + j + S + 1)) := by
  unfold create_plane_faces at hf
  rw [List.mem_flatMap] at hf
  obtain ⟨i, hi, hf⟩ := hf
  rw [List.mem_flatMap] at hf
  obtain ⟨j, hj, hf⟩ := hf
  rw [List.mem_range] at hi hj
  refine ⟨i, j, hi, hj, ?_⟩
  simp only [quad_faces, List.mem_cons, List.mem_singleton] at hf
  tauto

theorem face_index_bound {S i j : ℕ} (hS : 2 ≤ S) (hi : i < S - 1) (hj : j < S - 1) :
    i * S + j + S + 1 < S * S := by
  have hi2 : i + 2 ≤ S := by omega
  have hj2 : j + 2 ≤ S := by omega
  have hmul : (i + 2) * S ≤ S * S := Nat.mul_le_mul_right S hi2
  nlinarith

/-- C2: for every S at least 2 and any physical width and height,
create_subdivided_plane returns exactly S^2 vertices and 2*(S-1)^2 faces,
and every vertex index in every face is strictly below S^2. -/
theorem c2_plane_counts_and_bounds (width height : ℝ) (S : ℕ) (hS : 2 ≤ S) :
    (create_plane_vertices width height S).length = S ^ 2 ∧
    (create_plane_faces S).length = 2 * (S - 1) ^ 2 ∧
    ∀ f ∈ create_plane_faces S, f.1 < S ^ 2 ∧ f.2.1 < S ^ 2 ∧ f.2.2 < S ^ 2 := by
  refine ⟨?_, create_plane_faces_length S, ?_⟩
  · unfold create_plane_vertices
    rw [List.length_map, List.length_range, sq]
  · intro f hf
    obtain ⟨i, j, hi, hj, hcase⟩ := mem_create_plane_faces hf
    have hbound := face_index_bound hS hi hj
    rw [sq]
    rcases hcase with h | h <;> subst h <;>
      exact ⟨by dsimp only; omega, by dsimp only; omega, by dsimp only; omega⟩

/-- Witness for C2 at S = 3 (the spec scenario: 9 vertices, 8 faces). -/
theorem c2_plane_counts_and_bounds_witness :
    2 ≤ 3 ∧ ((create_plane_vertices 1 1 3).length = 3 ^ 2 ∧
      (create_plane_faces 3).length = 2 * (3 - 1) ^ 2 ∧
      ∀ f ∈ create_plane_faces 3, f.1 < 3 ^ 2 ∧ f.2.1 < 3 ^ 2 ∧ f.2.2 < 3 ^ 2) :=
  ⟨by norm_num, c2_plane_counts_and_bounds 1 1 3 (by norm_num)⟩

/-
Height-field sampling and displacement: apply_displacement
(generate_model.py lines 159-194).  The height map is a height x width
grid of values; sampling converts a UV coordinate to pixel indices with
python int() truncation and reads the numpy array, which accepts indices
in [-dim, dim) (negative indices wrap) and raises IndexError otherwise -
modelled by an Option-valued lookup.
-/

/-- Height map: shape (height, width) with entries addressed row-first. -/
structure HeightField where
  height : ℕ
  width : ℕ
  val : ℕ → ℕ → ℝ

/-- Numpy integer indexing into one axis of length len: indices in
[0, len) are taken as is, indices in [-len, 0) wrap, anything else is an
IndexError (none). -/
def np_index (len : ℕ) (i : ℤ) : Option ℕ :=
  if 0 ≤ i ∧ i < (len : ℤ) then some i.toNat
  else if -(len : ℤ) ≤ i ∧ i < 0 then some (i + len).toNat
  else none

/-- Python int() conversion of a real: truncation toward zero. -/
noncomputable def py_int (r : ℝ) : ℤ := if 0 ≤ r then ⌊r⌋ else ⌈r⌉

/-- Height lookup of apply_displacement for one UV pair:
x = int(u * (width - 1)), y = int(v * (height - 1)), then
height_map[y, x]. -/
noncomputable def sample_height (hm : HeightField) (u v : ℝ) : Option ℝ :=
  match np_index hm.height (py_int (v * ((hm.height : ℝ) - 1))),
        np_index hm.width (py_int (u * ((hm.width : ℝ) - 1))) with
  | some yi, some xi => some (hm.val yi xi)
  | _, _ => none

/-- Displacement of a single vertex: y is replaced by (h - 0.5) * scale,
x and z are kept (generate_model.py line 192). -/
noncomputable def displace_vertex (hm : HeightField) (scale : ℝ) (v : Vec3) (uv : ℝ × ℝ) :
    Option Vec3 :=
  match sample_height hm uv.1 uv.2 with
  | some h => some ⟨v.x, (h - 1 / 2) * scale, v.z⟩
  | none => none

/-- Displacement over a list of (vertex, uv) pairs; the first IndexError
aborts the loop, as in python. -/
noncomputable def displace_list (hm : HeightField) (scale : ℝ) :
    List (Vec3 × (ℝ × ℝ)) → Option (List Vec3)
  | [] => some []
  | p :: ps =>
    match displace_vertex hm scale p.1 p.2, displace_list hm scale ps with
    | some w, some rest => some (w :: rest)
    | _, _ => none

/-- apply_displacement: displace every vertex according to its UV sample. -/
noncomputable def apply_displacement (vertices : List Vec3) (uvs : List (ℝ × ℝ))
    (hm : HeightField) (scale : ℝ) : Option (List Vec3) :=
  displace_list hm scale (vertices.zip uvs)

/-- Displacement scale used by create_carpet_mesh (generate_model.py line
62): base scale times thickness relative to the 5 mm reference. -/
noncomputable def displacement_scale (base thickness : ℝ) : ℝ :=
  base * (thickness / (5 / 1000))

/-- Mesh-building part of create_carpet_mesh: subdivided plane followed by
displacement with the thickness-proportional scale. -/
noncomputable def create_carpet_vertices (base thickness width height : ℝ) (S : ℕ)
    (hm : HeightField) : Option (List Vec3) :=
  apply_displacement (create_plane_vertices width height S) (create_plane_uvs S) hm
    (displacement_scale base thickness)

theorem pixel_index_range (n : ℕ) (u : ℝ) (hn : 1 ≤ n) (h0 : 0 ≤ u) (h1 : u ≤ 1) :
    0 ≤ py_int (u * ((n : ℝ) - 1)) ∧ py_int (u * ((n : ℝ) - 1)) ≤ (n : ℤ) - 1 := by
  have hn1 : (0 : ℝ) ≤ (n : ℝ) - 1 := by
    have : (1 : ℝ) ≤ (n : ℝ) := by exact_mod_cast hn
    linarith
  have hq0 : 0 ≤ u * ((n : ℝ) - 1) := mul_nonneg h0 hn1
  have hql : u * ((n : ℝ) - 1) ≤ (n : ℝ) - 1 := by nlinarith
  unfold py_int
  rw [if_pos hq0]
  refine ⟨Int.floor_nonneg.mpr hq0, ?_⟩
  have h2 : (⌊u * ((n : ℝ) - 1)⌋ : ℝ) ≤ (n : ℝ) - 1 := le_trans (Int.floor_le _) hql
  have h3 : ((n : ℝ) - 1) = (((n : ℤ) - 1 : ℤ) : ℝ) := by push_cast; ring
  rw [h3] at h2
  exact_mod_cast h2

theorem np_index_of_range {len : ℕ} {i : ℤ} (h0 : 0 ≤ i) (h1 : i < (len : ℤ)) :
    np_index len i = some i.toNat := by
  unfold np_index
  rw [if_pos ⟨h0, h1⟩]

/-- C8: for UV coordinates in [0,1] x [0,1] and a height map with at least
one row and one column, the pixel indices x = int(u * (width - 1)) and
y = int(v * (height - 1)) lie inside [0, width - 1] x [0, height - 1], and
the height lookup succeeds reading exactly that in-bounds pixel (no wrap,
no IndexError). -/
theorem c8_sampling_in_bounds (hm : HeightField) (u v : ℝ)
    (hw : 1 ≤ hm.width) (hh : 1 ≤ hm.height)
    (hu0 : 0 ≤ u) (hu1 : u ≤ 1) (hv0 : 0 ≤ v) (hv1 : v ≤ 1) :
    0 ≤ py_int (u * ((hm.width : ℝ) - 1)) ∧
    py_int (u * ((hm.width : ℝ) - 1)) ≤ (hm.width : ℤ) - 1 ∧
    0 ≤ py_int (v * ((hm.height : ℝ) - 1)) ∧
    py_int (v * ((hm.height : ℝ) - 1)) ≤ (hm.height : ℤ) - 1 ∧
    sample_height hm u v =
      some (hm.val (py_int (v * ((hm.height : ℝ) - 1))).toNat
                   (py_int (u * ((hm.width : ℝ) - 1))).toNat) := by
  obtain ⟨hx0, hx1⟩ := pixel_index_range hm.width u hw hu0 hu1
  obtain ⟨hy0, hy1⟩ := pixel_index_range hm.height v hh hv0 hv1
  refine ⟨hx0, hx1, hy0, hy1, ?_⟩
  unfold sample_height
  rw [np_index_of_range hy0 (by omega), np_index_of_range hx0 (by omega)]

/-- Witness for C8 at a 2 x 3 height map and uv = (1/2, 1). -/
theorem c8_sampling_in_bounds_witness :
    let hm : HeightField := ⟨2, 3, fun _ _ => 1 / 4⟩
    0 ≤ py_int ((1 / 2 : ℝ) * ((hm.width : ℝ) - 1)) ∧
    py_int ((1 / 2 : ℝ) * ((hm.width : ℝ) - 1)) ≤ (hm.width : ℤ) - 1 ∧
    0 ≤ py_int ((1 : ℝ) * ((hm.height : ℝ) - 1)) ∧
    py_int ((1 : ℝ) * ((hm.height : ℝ) - 1)) ≤ (hm.height : ℤ) - 1 ∧
    sample_height hm (1 / 2) 1 =
      some (hm.val (py_int ((1 : ℝ) * ((hm.height : ℝ) - 1))).toNat
                   (py_int ((1 / 2 : ℝ) * ((hm.width : ℝ) - 1))).toNat) :=
  c8_sampling_in_bounds ⟨2, 3, fun _ _ => 1 / 4⟩ (1 / 2) 1
    (by norm_num) (by norm_num) (by norm_num) (by norm_num) (by norm_num) (by norm_num)

theorem getD_map_range {α : Type} {n k : ℕ} (f : ℕ → α) (d : α) (hk : k < n) :
    ((List.range n).map f).getD k d = f k := by
  rw [List.getD_eq_getElem?_getD, List.getElem?_map, List.getElem?_range hk,
    Option.map_some', Option.getD_some]

theorem zip_getD {α β : Type} {a : List α} {b : List β} {k : ℕ} (da : α) (db : β)
    (ha : k < a.length) (hb : k < b.length) :
    (a.zip b).getD k (da, db) = (a.getD k da, b.getD k db) := by
  rw [List.getD_eq_getElem?_getD, List.getD_eq_getElem?_getD, List.getD_eq_getElem?_getD]
  have hz : (a.zip b)[k]? = some (a[k], b[k]) :=
    List.getElem?_zip_eq_some.mpr ⟨List.getElem?_eq_getElem ha, List.getElem?_eq_getElem hb⟩
  rw [hz, List.getElem?_eq_getElem ha, List.getElem?_eq_getElem hb]
  rfl

theorem displace_list_length (hm : HeightField) (scale : ℝ) :
    ∀ (l : List (Vec3 × (ℝ × ℝ))) (out : List Vec3),
      displace_list hm scale l = some out → out.length = l.length := by
  intro l
  induction l with
  | nil => intro out h; simp only [displace_list] at h; cases h; rfl
  | cons p ps ih =>
    intro out h
    unfold displace_list at h
    cases hv : displace_vertex hm scale p.1 p.2 with
    | none => rw [hv] at h; cases h
    | some w =>
      cases hrest : displace_list hm scale ps with
      | none => rw [hv, hrest] at h; cases h
      | some rest =>
        rw [hv, hrest] at h
        cases h
        simp [ih rest hrest]

theorem displace_list_getD (hm : HeightField) (scale : ℝ) :
    ∀ (l : List (Vec3 × (ℝ × ℝ))) (out : List Vec3),
      displace_list hm scale l = some out →
      ∀ k, k < l.length →
        ∃ hval, sample_height hm (l.getD k (vzero, (0, 0))).2.1 (l.getD k (vzero, (0, 0))).2.2
            = some hval ∧
          out.getD k vzero = ⟨(l.getD k (vzero, (0, 0))).1.x, (hval - 1 / 2) * scale,
            (l.getD k (vzero, (0, 0))).1.z⟩ := by
  intro l
  induction l with
  | nil => intro out _ k hk; exact absurd hk (by simp)
  | cons p ps ih =>
    intro out h k hk
    unfold displace_list at h
    cases hv : displace_vertex hm scale p.1 p.2 with
    | none => rw [hv] at h; cases h
    | some w =>
      cases hrest : displace_list hm scale ps with
      | none => rw [hv, hrest] at h; cases h
      | some rest =>
        rw [hv, hrest] at h
        cases h
        cases k with
        | zero =>
          unfold displace_vertex at hv
          cases hs : sample_height hm p.2.1 p.2.2 with
          | none => rw [hs] at hv; cases hv
          | some hval =>
            rw [hs] at hv
            cases hv
            exact ⟨hval, hs, rfl⟩
        | succ k' =>
          have hk' : k' < ps.length := by simpa using hk
          simpa using ih rest hrest k' hk'

/-- C3: in the mesh produced by create_carpet_mesh (plane plus
displacement at scale base * (thickness / 0.005)), every vertex k has its
y coordinate set to (h - 0.5) * scale for the height h sampled at its UV;
in particular h = 0.5 gives y = 0, h = 1 gives y = scale / 2 and h = 0
gives y = -scale / 2. -/
theorem c3_displacement_y (base thickness width height : ℝ) (S : ℕ) (hm : HeightField)
    (out : List Vec3) (hout : create_carpet_vertices base thickness width height S hm = some out)
    (k : ℕ) (hk : k < S * S) (hval : ℝ)
    (hs : sample_height hm (plane_uv S k).1 (plane_uv S k).2 = some hval) :
    (out.getD k vzero).y = (hval - 1 / 2) * displacement_scale base thickness ∧
    displacement_scale base thickness = base * (thickness / (5 / 1000)) ∧
    (hval = 1 / 2 → (out.getD k vzero).y = 0) ∧
    (hval = 1 → (out.getD k vzero).y = displacement_scale base thickness / 2) ∧
    (hval = 0 → (out.getD k vzero).y = -(displacement_scale base thickness / 2)) := by
  unfold create_carpet_vertices apply_displacement at hout
  have hlenv : (create_plane_vertices width height S).length = S * S := by
    unfold create_plane_vertices; rw [List.length_map, List.length_range]
  have hlenu : (create_plane_uvs S).length = S * S := by
    unfold create_plane_uvs; rw [List.length_map, List.length_range]
  have hlenz : ((create_plane_vertices width height S).zip (create_plane_uvs S)).length = S * S := by
    rw [List.length_zip, hlenv, hlenu, Nat.min_self]
  obtain ⟨h2, hsamp, hform⟩ := displace_list_getD hm (displacement_scale base thickness) _ out hout k (by omega)
  rw [zip_getD vzero ((0 : ℝ), (0 : ℝ)) (by omega) (by omega)] at hsamp hform
  have huv : (create_plane_uvs S).getD k (0, 0) = plane_uv S k := by
    unfold create_plane_uvs; exact getD_map_range _ _ hk
  rw [huv] at hsamp hform
  rw [hsamp] at hs
  cases hs
  refine ⟨by rw [hform], rfl, ?_, ?_, ?_⟩
  · intro hv; rw [hform]; simp [hv]
  · intro hv; rw [hform, hv]; ring
  · intro hv; rw [hform, hv]; ring

/-- Concrete 1 x 1 height field, constant value 1. -/
noncomputable def hmOne : HeightField := ⟨1, 1, fun _ _ => 1⟩

theorem hmOne_sample (u v : ℝ) :
    sample_height hmOne u v = some 1 := by
  unfold sample_height hmOne py_int np_index
  norm_num

theorem carpet_vertices_one_eval :
    create_carpet_vertices 1 (5 / 1000) 2 2 1 hmOne = some [⟨-1, 1 / 2, -1⟩] := by
  unfold create_carpet_vertices apply_displacement create_plane_vertices create_plane_uvs
  rw [show (1 * 1 : ℕ) = 1 from rfl, show List.range 1 = [0] by decide,
    List.map_singleton, List.map_singleton,
    List.zip_cons_cons, List.zip_nil_right]
  unfold displace_list
  rw [show (displace_vertex hmOne (displacement_scale 1 (5 / 1000))
      (plane_vertex 2 2 1 0) (plane_uv 1 0) : Option Vec3)
    = some ⟨-1, 1 / 2, -1⟩ from ?_]
  · unfold displace_list
    rfl
  · unfold displace_vertex
    rw [hmOne_sample (plane_uv 1 0).1 (plane_uv 1 0).2]
    unfold plane_vertex displacement_scale
    norm_num

/-- Witness for C3 at a 1 x 1 height map of constant value 1 (sampled
height 1 gives y = scale / 2). -/
theorem c3_displacement_y_witness :
    create_carpet_vertices 1 (5 / 1000) 2 2 1 hmOne = some [⟨-1, 1 / 2, -1⟩] ∧
    0 < 1 * 1 ∧
    sample_height hmOne (plane_uv 1 0).1 (plane_uv 1 0).2 = some 1 ∧
    (([⟨-1, 1 / 2, -1⟩] : List Vec3).getD 0 vzero).y
      = ((1 : ℝ) - 1 / 2) * displacement_scale 1 (5 / 1000) :=
  ⟨carpet_vertices_one_eval, by norm_num, hmOne_sample _ _,
    (c3_displacement_y 1 (5 / 1000) 2 2 1 hmOne [⟨-1, 1 / 2, -1⟩] carpet_vertices_one_eval
      0 (by norm_num) 1 (hmOne_sample _ _)).1⟩

/-
C7 concerns validation that the source does not perform:
create_subdivided_plane accepts any subdivision count without raising,
and a zero-area height field is only discovered as an IndexError when the
displacement loop first samples it.
-/

/-- Amended C7: the code performs no configuration validation.  For S < 2
create_subdivided_plane returns normally with S * S vertices and an empty
face list (no error is surfaced), and for a zero-area height field every
height lookup fails as a numpy IndexError (none) during displacement
rather than as an immediately-surfaced configuration error. -/
theorem c7_no_validation :
    (∀ (width height : ℝ) (S : ℕ), S < 2 →
      (create_subdivided_plane width height S).2.1 = [] ∧
      (create_subdivided_plane width height S).1.length = S * S) ∧
    (∀ (hm : HeightField) (u v : ℝ), hm.width = 0 ∨ hm.height = 0 →
      sample_height hm u v = none) := by
  constructor
  · intro width height S hS
    constructor
    · show create_plane_faces S = []
      unfold create_plane_faces
      rw [show S - 1 = 0 by omega]
      rfl
    · show (create_plane_vertices width height S).length = S * S
      unfold create_plane_vertices
      rw [List.length_map, List.length_range]
  · intro hm u v hzero
    have hnone : ∀ i : ℤ, np_index 0 i = none := by
      intro i
      unfold np_index
      rw [if_neg (by omega), if_neg (by omega)]
    unfold sample_height
    rcases hzero with hw | hh
    · rw [hw]
      cases np_index hm.height (py_int (v * ((hm.height : ℝ) - 1))) with
      | none => rw [hnone]
      | some yi => rw [hnone]
    · rw [hh]
      rw [hnone]

/-- Witness for C7 at S = 1 and a 0 x 5 height field. -/
theorem c7_no_validation_witness :
    ((1 : ℕ) < 2 ∧ (create_subdivided_plane 2 3 1).2.1 = [] ∧
      (create_subdivided_plane 2 3 1).1.length = 1 * 1) ∧
    ((⟨0, 5, fun _ _ => 0⟩ : HeightField).height = 0 ∧
      sample_height ⟨0, 5, fun _ _ => 0⟩ (1 / 2) (1 / 2) = none) :=
  ⟨⟨by norm_num, (c7_no_validation.1 2 3 1 (by norm_num)).1,
    (c7_no_validation.1 2 3 1 (by norm_num)).2⟩,
   ⟨rfl, c7_no_validation.2 ⟨0, 5, fun _ _ => 0⟩ (1 / 2) (1 / 2) (Or.inr rfl)⟩⟩

/-- Counterexample for C7 as stated: at subdivisions = 1 (S < 2) the mesh
builder does not fail: it returns a defined degenerate mesh - one vertex,
zero faces - and the pipeline only stops later, if at all.  No
configuration error exists in the code. -/
theorem c7_counterexample :
    (create_subdivided_plane 2 3 1).1 = [⟨-1, 0, -(3 / 2)⟩] ∧
    (create_subdivided_plane 2 3 1).2.1 = [] ∧
    (create_subdivided_plane 2 3 1).2.2 = [(0, 1)] := by
  refine ⟨?_, rfl, ?_⟩
  · show create_plane_vertices 2 3 1 = _
    unfold create_plane_vertices
    rw [show (1 * 1 : ℕ) = 1 from rfl, show List.range 1 = [0] by decide, List.map_singleton]
    have h : plane_vertex 2 3 1 0 = ⟨-1, 0, -(3 / 2)⟩ := by
      unfold plane_vertex
      rw [Vec3.ext_iff']
      norm_num
    rw [h]
  · show create_plane_uvs 1 = _
    unfold create_plane_uvs
    rw [show (1 * 1 : ℕ) = 1 from rfl, show List.range 1 = [0] by decide, List.map_singleton]
    have h : plane_uv 1 0 = ((0 : ℝ), (1 : ℝ)) := by
      unfold plane_uv
      rw [Prod.ext_iff]
      norm_num
    rw [h]

/-
Binary buffer assembly of export_glb_with_pygltflib (generate_model.py
lines 363-378 and 497-498).  add_to_buffer appends the raw bytes of an
array to the growing bytearray and returns (start_offset, byte length);
the seven regions are appended in the order positions, uvs, normals,
tangents, indices, basecolor png, normal-map png.  Bytes are modelled as
naturals.
-/

/-- add_to_buffer: append data to the buffer, returning the new buffer,
the start offset and the byte length of the appended region. -/
def add_to_buffer (buf data : List ℕ) : List ℕ × ℕ × ℕ :=
  (buf ++ data, buf.length, data.length)

/-- Offsets and sizes of the seven regions plus the final buffer, as
produced by export_glb_with_pygltflib. -/
structure GlbBinaryLayout where
  buffer : List ℕ
  pos_offset : ℕ
  pos_size : ℕ
  uv_offset : ℕ
  uv_size : ℕ
  normal_offset : ℕ
  normal_size : ℕ
  tangent_offset : ℕ
  tangent_size : ℕ
  index_offset : ℕ
  index_size : ℕ
  basecolor_offset : ℕ
  basecolor_size : ℕ
  normalmap_offset : ℕ
  normalmap_size : ℕ

/-- Buffer assembly of export_glb_with_pygltflib: the successive
add_to_buffer calls on vertices, uvs, normals, tangents_vec4, indices
(lines 372-378) and on the two PNG byte strings (lines 497-498). -/
def assemble_binary_data (pos uv nrm tan idx bc nm : List ℕ) : GlbBinaryLayout :=
  let r1 := add_to_buffer [] pos
  let r2 := add_to_buffer r1.1 uv
  let r3 := add_to_buffer r2.1 nrm
  let r4 := add_to_buffer r3.1 tan
  let r5 := add_to_buffer r4.1 idx
  let r6 := add_to_buffer r5.1 bc
  let r7 := add_to_buffer r6.1 nm
  ⟨r7.1, r1.2.1, r1.2.2, r2.2.1, r2.2.2, r3.2.1, r3.2.2, r4.2.1, r4.2.2,
    r5.2.1, r5.2.2, r6.2.1, r6.2.2, r7.2.1, r7.2.2⟩

/-- Amended C1: the regions are appended in the claimed order but with no
padding anywhere: every offset is the exact sum of the preceding raw
lengths and the buffer is the plain concatenation of the seven regions.
When the attribute and index arrays have their glTF element sizes
(vec3/vec2/vec4 float32, u32 indices), all attribute offsets, the index
offset and the basecolor PNG offset happen to be 4-byte aligned because
each preceding attribute region size is a multiple of 4; the normal-map
PNG starts immediately after the basecolor PNG, at an offset that is not
in general aligned. -/
theorem c1_buffer_layout_no_padding (nv ni : ℕ) (pos uv nrm tan idx bc nm : List ℕ)
    (hpos : pos.length = 12 * nv) (huv : uv.length = 8 * nv) (hnrm : nrm.length = 12 * nv)
    (htan : tan.length = 16 * nv) (hidx : idx.length = 4 * ni) :
    (assemble_binary_data pos uv nrm tan idx bc nm).buffer
        = pos ++ uv ++ nrm ++ tan ++ idx ++ bc ++ nm ∧
    (assemble_binary_data pos uv nrm tan idx bc nm).pos_offset = 0 ∧
    (assemble_binary_data pos uv nrm tan idx bc nm).uv_offset = pos.length ∧
    (assemble_binary_data pos uv nrm tan idx bc nm).normal_offset
        = pos.length + uv.length ∧
    (assemble_binary_data pos uv nrm tan idx bc nm).tangent_offset
        = pos.length + uv.length + nrm.length ∧
    (assemble_binary_data pos uv nrm tan idx bc nm).index_offset
        = pos.length + uv.length + nrm.length + tan.length ∧
    (assemble_binary_data pos uv nrm tan idx bc nm).basecolor_offset
        = pos.length + uv.length + nrm.length + tan.length + idx.length ∧
    (assemble_binary_data pos uv nrm tan idx bc nm).normalmap_offset
        = pos.length + uv.length + nrm.length + tan.length + idx.length + bc.length ∧
    (assemble_binary_data pos uv nrm tan idx bc nm).buffer.length
        = pos.length + uv.length + nrm.length + tan.length + idx.length
          + bc.length + nm.length ∧
    4 ∣ (assemble_binary_data pos uv nrm tan idx bc nm).uv_offset ∧
    4 ∣ (assemble_binary_data pos uv nrm tan idx bc nm).normal_offset ∧
    4 ∣ (assemble_binary_data pos uv nrm tan idx bc nm).tangent_offset ∧
    4 ∣ (assemble_binary_data pos uv nrm tan idx bc nm).index_offset ∧
    4 ∣ (assemble_binary_data pos uv nrm tan idx bc nm).basecolor_offset := by
  refine ⟨?_, ?_, ?_, ?_, ?_, ?_, ?_, ?_, ?_, ?_, ?_, ?_, ?_, ?_⟩
  · simp [assemble_binary_data, add_to_buffer]
  all_goals
    simp only [assemble_binary_data, add_to_buffer, List.nil_append, List.append_assoc,
      List.length_append, List.length_nil, hpos, huv, hnrm, htan, hidx]
  all_goals omega

/-- Witness for C1 (amended) at one vertex, one triangle and PNG blobs of
lengths 5 and 1. -/
theorem c1_buffer_layout_no_padding_witness :
    ([9, 9, 9, 9, 9, 9, 9, 9, 9, 9, 9, 9] : List ℕ).length = 12 * 1 ∧
    ([8, 8, 8, 8, 8, 8, 8, 8] : List ℕ).length = 8 * 1 ∧
    (assemble_binary_data [9, 9, 9, 9, 9, 9, 9, 9, 9, 9, 9, 9] [8, 8, 8, 8, 8, 8, 8, 8]
      [7, 7, 7, 7, 7, 7, 7, 7, 7, 7, 7, 7] [6, 6, 6, 6, 6, 6, 6, 6, 6, 6, 6, 6, 6, 6, 6, 6]
      [5, 5, 5, 5, 5, 5, 5, 5, 5, 5, 5, 5] [1, 2, 3, 4, 5] [1]).normalmap_offset
      = 12 + 8 + 12 + 16 + 12 + 5 :=
  ⟨rfl, rfl, by
    have h := (c1_buffer_layout_no_padding 1 3
      [9, 9, 9, 9, 9, 9, 9, 9, 9, 9, 9, 9] [8, 8, 8, 8, 8, 8, 8, 8]
      [7, 7, 7, 7, 7, 7, 7, 7, 7, 7, 7, 7] [6, 6, 6, 6, 6, 6, 6, 6, 6, 6, 6, 6, 6, 6, 6, 6]
      [5, 5, 5, 5, 5, 5, 5, 5, 5, 5, 5, 5] [1, 2, 3, 4, 5] [1]
      rfl rfl rfl rfl rfl).2.2.2.2.2.2.2.1
    simpa using h⟩

/-- Counterexample for C1 as stated: no padding is inserted anywhere.
With a basecolor PNG of 5 bytes the normal-map PNG region starts at
offset 60 + 5, which is not 4-byte aligned, and the total buffer length
is the bare sum of the region lengths, so no padding bytes exist before
or after the PNG blobs. -/
theorem c1_counterexample :
    (assemble_binary_data [9, 9, 9, 9, 9, 9, 9, 9, 9, 9, 9, 9] [8, 8, 8, 8, 8, 8, 8, 8]
      [7, 7, 7, 7, 7, 7, 7, 7, 7, 7, 7, 7] [6, 6, 6, 6, 6, 6, 6, 6, 6, 6, 6, 6, 6, 6, 6, 6]
      [5, 5, 5, 5, 5, 5, 5, 5, 5, 5, 5, 5] [1, 2, 3, 4, 5] [1]).normalmap_offset = 65 ∧
    ¬ (4 ∣ (assemble_binary_data [9, 9, 9, 9, 9, 9, 9, 9, 9, 9, 9, 9] [8, 8, 8, 8, 8, 8, 8, 8]
      [7, 7, 7, 7, 7, 7, 7, 7, 7, 7, 7, 7] [6, 6, 6, 6, 6, 6, 6, 6, 6, 6, 6, 6, 6, 6, 6, 6]
      [5, 5, 5, 5, 5, 5, 5, 5, 5, 5, 5, 5] [1, 2, 3, 4, 5] [1]).normalmap_offset) ∧
    (assemble_binary_data [9, 9, 9, 9, 9, 9, 9, 9, 9, 9, 9, 9] [8, 8, 8, 8, 8, 8, 8, 8]
      [7, 7, 7, 7, 7, 7, 7, 7, 7, 7, 7, 7] [6, 6, 6, 6, 6, 6, 6, 6, 6, 6, 6, 6, 6, 6, 6, 6]
      [5, 5, 5, 5, 5, 5, 5, 5, 5, 5, 5, 5] [1, 2, 3, 4, 5] [1]).buffer.length = 66 := by
  refine ⟨rfl, by decide, rfl⟩

/-
GLB file writing (generate_model.py lines 601-625): the document is
saved with gltf.save_binary(output_path) directly at the destination
path inside a try block whose except clause logs and re-raises.
-/

/-- File system state: each path optionally holds byte content. -/
def FileSys : Type := String → Option (List ℕ)

/-- Update one path of the file system. -/
def fs_update (fs : FileSys) (path : String) (content : List ℕ) : FileSys :=
  fun p => if p = path then some content else fs p

/-- Modelled from the spec: pygltflib gltf.save_binary (library code, not
part of the repository) writes the GLB bytes directly to the destination
path, with no temporary-file-then-rename step.  fault = none is a clean
write; fault = some k is a filesystem failure after k bytes, which leaves
the prefix written so far at the path and raises.  The returned flag
records whether an exception was raised. -/
def save_binary (fs : FileSys) (path : String) (content : List ℕ) (fault : Option ℕ) :
    FileSys × Bool :=
  match fault with
  | none => (fs_update fs path content, false)
  | some k => (fs_update fs path (content.take k), true)

/-- Write step of export_glb_with_pygltflib: try save_binary; the except
clause only logs and re-raises, so the error propagates and the file
system is left exactly as save_binary left it. -/
def export_glb_write (fs : FileSys) (path : String) (content : List ℕ) (fault : Option ℕ) :
    FileSys × Bool :=
  let r := save_binary fs path content fault
  (r.1, r.2)

/-- Amended C9: a filesystem failure during the GLB write does raise a
fatal error (the except clause re-raises), but a partial file remains at
the destination path: the write goes directly to the final path, so the
prefix written before the failure stays visible there.  There is no
temporary-file-then-rename step. -/
theorem c9_write_failure_partial_file (fs : FileSys) (path : String) (content : List ℕ)
    (k : ℕ) (hk : k < content.length) :
    (export_glb_write fs path content (some k)).2 = true ∧
    (export_glb_write fs path content (some k)).1 path = some (content.take k) ∧
    content.take k ≠ content := by
  refine ⟨rfl, ?_, ?_⟩
  · show fs_update fs path (content.take k) path = some (content.take k)
    unfold fs_update
    rw [if_pos rfl]
  · intro h
    have := congrArg List.length h
    rw [List.length_take] at this
    omega

/-- Witness for C9 (amended) at a concrete four-byte file failing after
two bytes. -/
theorem c9_write_failure_partial_file_witness :
    (2 < ([1, 2, 3, 4] : List ℕ).length) ∧
    ((export_glb_write (fun _ => none) "carpet.glb" [1, 2, 3, 4] (some 2)).2 = true ∧
     (export_glb_write (fun _ => none) "carpet.glb" [1, 2, 3, 4] (some 2)).1 "carpet.glb"
       = some ([1, 2, 3, 4].take 2) ∧
     ([1, 2, 3, 4] : List ℕ).take 2 ≠ [1, 2, 3, 4]) :=
  ⟨by norm_num, c9_write_failure_partial_file (fun _ => none) "carpet.glb" [1, 2, 3, 4] 2
    (by norm_num)⟩

/-- Counterexample for C9 as stated: after a failure in the middle of the
write, the destination path still holds the partial prefix [1, 2] - a
partial file remains, contradicting the claim that none does. -/
theorem c9_counterexample :
    (export_glb_write (fun _ => none) "carpet.glb" [1, 2, 3, 4] (some 2)).2 = true ∧
    (export_glb_write (fun _ => none) "carpet.glb" [1, 2, 3, 4] (some 2)).1 "carpet.glb"
      = some [1, 2] ∧
    some [1, 2] ≠ (none : Option (List ℕ)) := by
  refine ⟨rfl, ?_, by simp⟩
  show fs_update (fun _ => none) "carpet.glb" ([1, 2, 3, 4].take 2) "carpet.glb" = some [1, 2]
  unfold fs_update
  rw [if_pos rfl]
  rfl

/-
Tangent computation: compute_tangents (generate_model.py lines 197-289).
Per-triangle accumulation (lines 224-262) with the degenerate-UV skip,
followed by the per-vertex post-pass (lines 264-287): normalize the
accumulated tangent when its length exceeds 1e-8, Gram-Schmidt against
the vertex normal, and the arbitrary-perpendicular fallback.
-/

/-- Degeneracy threshold 1e-8 used by compute_tangents. -/
noncomputable def tangent_eps : ℝ := 1 / 100000000

/-- Accumulate a vector into entry i of a list (tangents[i] += t). -/
noncomputable def add_at (l : List Vec3) (i : ℕ) (v : Vec3) : List Vec3 :=
  l.set i (vadd (l.getD i vzero) v)

/-- One iteration of the triangle loop of compute_tangents: compute the
edges and UV deltas of the face, skip it when the UV determinant is
below 1e-8 in absolute value, otherwise accumulate the Lengyel tangent
and bitangent into the three vertex slots. -/
noncomputable def tangent_step (vertices : List Vec3) (uvs : List (ℝ × ℝ))
    (st : List Vec3 × List Vec3) (fc : ℕ × ℕ × ℕ) : List Vec3 × List Vec3 :=
  let v1 := vertices.getD fc.1 vzero
  let v2 := vertices.getD fc.2.1 vzero
  let v3 := vertices.getD fc.2.2 vzero
  let w1 := uvs.getD fc.1 (0, 0)
  let w2 := uvs.getD fc.2.1 (0, 0)
  let w3 := uvs.getD fc.2.2 (0, 0)
  let edge1 := vsub v2 v1
  let edge2 := vsub v3 v1
  let d1 : ℝ × ℝ := (w2.1 - w1.1, w2.2 - w1.2)
  let d2 : ℝ × ℝ := (w3.1 - w1.1, w3.2 - w1.2)
  let den := d1.1 * d2.2 - d2.1 * d1.2
  if |den| < tangent_eps then st
  else
    let f0 := 1 / den
    let tangent := smul3 f0 (vsub (smul3 d2.2 edge1) (smul3 d1.2 edge2))
    let bitangent := smul3 f0 (vadd (smul3 (-d2.1) edge1) (smul3 d1.1 edge2))
    (add_at (add_at (add_at st.1 fc.1 tangent) fc.2.1 tangent) fc.2.2 tangent,
     add_at (add_at (add_at st.2 fc.1 bitangent) fc.2.1 bitangent) fc.2.2 bitangent)

/-- Triangle-accumulation phase of compute_tangents: fold the triangle
loop over all faces starting from zero tangent and bitangent arrays. -/
noncomputable def accumulate_tangents (vertices : List Vec3) (uvs : List (ℝ × ℝ))
    (faces : List (ℕ × ℕ × ℕ)) : List Vec3 × List Vec3 :=
  faces.foldl (tangent_step vertices uvs)
    (List.replicate vertices.length vzero, List.replicate vertices.length vzero)

/-- Per-vertex post-pass of compute_tangents: vertices whose accumulated
tangent length exceeds 1e-8 are normalized and Gram-Schmidt
orthogonalized against the vertex normal, falling back to an arbitrary
perpendicular when the projection is negligible; all other vertices are
left untouched. -/
noncomputable def tangent_post (t n : Vec3) : Vec3 :=
  if tangent_eps < norm3 t then
    let tn := vdiv t (norm3 t)
    let proj := vsub tn (smul3 (dot3 tn n) n)
    if tangent_eps < norm3 proj then vdiv proj (norm3 proj)
    else
      let arb : Vec3 := if (9 : ℝ) / 10 < |dot3 n ⟨1, 0, 0⟩| then ⟨0, 1, 0⟩ else ⟨1, 0, 0⟩
      vdiv (cross3 n arb) (norm3 (cross3 n arb))
  else t

/-- compute_tangents: accumulation followed by the per-vertex post-pass. -/
noncomputable def compute_tangents (vertices : List Vec3) (faces : List (ℕ × ℕ × ℕ))
    (uvs : List (ℝ × ℝ)) (normals : List Vec3) : List Vec3 :=
  let acc := (accumulate_tangents vertices uvs faces).1
  (List.range vertices.length).map
    (fun k => tangent_post (acc.getD k vzero) (normals.getD k vzero))

/-- Count of vertices whose accumulated tangent passed the 1e-8 validity
threshold (np.sum(valid_tangents), generate_model.py line 288). -/
noncomputable def valid_tangent_count (vertices : List Vec3) (uvs : List (ℝ × ℝ))
    (faces : List (ℕ × ℕ × ℕ)) : ℕ :=
  ((accumulate_tangents vertices uvs faces).1.filter
    (fun t => decide (tangent_eps < norm3 t))).length

/-- Log lines emitted by compute_tangents (generate_model.py lines 218
and 288): these two messages are its only diagnostic output, and neither
depends on which triangles were skipped as UV-degenerate. -/
noncomputable def compute_tangents_logs (vertices : List Vec3) (uvs : List (ℝ × ℝ))
    (faces : List (ℕ × ℕ × ℕ)) : List String :=
  ["Computing tangent vectors for consistent normal mapping...",
   "Computed tangents for " ++ toString (valid_tangent_count vertices uvs faces)
     ++ " vertices"]

theorem dot3_self_nonneg (v : Vec3) : 0 ≤ dot3 v v := by
  unfold dot3
  nlinarith [sq_nonneg v.x, sq_nonneg v.y, sq_nonneg v.z]

theorem norm3_nonneg (v : Vec3) : 0 ≤ norm3 v := Real.sqrt_nonneg _

theorem tangent_eps_pos : (0 : ℝ) < tangent_eps := by unfold tangent_eps; norm_num

theorem dot3_self_eq_one_of_norm (v : Vec3) (h : norm3 v = 1) : dot3 v v = 1 := by
  unfold norm3 at h
  exact Real.sqrt_eq_one.mp h

theorem dot3_vdiv (v : Vec3) (s : ℝ) (n : Vec3) : dot3 (vdiv v s) n = dot3 v n / s := by
  unfold dot3 vdiv
  ring

theorem norm3_vdiv (v : Vec3) (s : ℝ) : norm3 (vdiv v s) = norm3 v / |s| := by
  unfold norm3
  have h : dot3 (vdiv v s) (vdiv v s) = dot3 v v / s ^ 2 := by
    unfold dot3 vdiv
    ring
  rw [h, Real.sqrt_div (dot3_self_nonneg v), Real.sqrt_sq_eq_abs]

theorem norm3_self_div (v : Vec3) (h : 0 < norm3 v) : norm3 (vdiv v (norm3 v)) = 1 := by
  rw [norm3_vdiv, abs_of_pos h, div_self (ne_of_gt h)]

theorem dot3_cross_left (n a : Vec3) : dot3 (cross3 n a) n = 0 := by
  unfold dot3 cross3
  ring

theorem dot3_cross_self (n a : Vec3) :
    dot3 (cross3 n a) (cross3 n a) = dot3 n n * dot3 a a - (dot3 n a) ^ 2 := by
  unfold dot3 cross3
  ring

/-- Unfolded form of the tangent post-pass (let bindings expanded). -/
theorem tangent_post_eq (t n : Vec3) :
    tangent_post t n =
      if tangent_eps < norm3 t then
        if tangent_eps < norm3 (vsub (vdiv t (norm3 t)) (smul3 (dot3 (vdiv t (norm3 t)) n) n))
        then
          vdiv (vsub (vdiv t (norm3 t)) (smul3 (dot3 (vdiv t (norm3 t)) n) n))
            (norm3 (vsub (vdiv t (norm3 t)) (smul3 (dot3 (vdiv t (norm3 t)) n) n)))
        else
          vdiv (cross3 n (if (9 : ℝ) / 10 < |dot3 n ⟨1, 0, 0⟩| then ⟨0, 1, 0⟩ else ⟨1, 0, 0⟩))
            (norm3 (cross3 n
              (if (9 : ℝ) / 10 < |dot3 n ⟨1, 0, 0⟩| then ⟨0, 1, 0⟩ else ⟨1, 0, 0⟩)))
      else t := rfl

/-- Gram-Schmidt projection is orthogonal to a unit normal. -/
theorem proj_orth (tn n : Vec3) (hnn : dot3 n n = 1) :
    dot3 (vsub tn (smul3 (dot3 tn n) n)) n = 0 := by
  have h : dot3 (vsub tn (smul3 (dot3 tn n) n)) n = dot3 tn n - dot3 tn n * dot3 n n := by
    unfold dot3 vsub smul3
    ring
  rw [h, hnn]
  ring

/-- The fallback cross product against the chosen arbitrary axis has
positive squared length when the normal is unit. -/
theorem fallback_cross_pos (n : Vec3) (hnn : dot3 n n = 1) :
    0 < dot3 (cross3 n (if (9 : ℝ) / 10 < |dot3 n ⟨1, 0, 0⟩| then ⟨0, 1, 0⟩ else ⟨1, 0, 0⟩))
        (cross3 n (if (9 : ℝ) / 10 < |dot3 n ⟨1, 0, 0⟩| then ⟨0, 1, 0⟩ else ⟨1, 0, 0⟩)) := by
  have hx : dot3 n ⟨1, 0, 0⟩ = n.x := by unfold dot3; ring
  by_cases harb : (9 : ℝ) / 10 < |dot3 n ⟨1, 0, 0⟩|
  · rw [if_pos harb, dot3_cross_self, hnn]
    rw [hx] at harb
    have hx2 : (9 : ℝ) / 10 * (9 / 10) < n.x * n.x := by
      have := mul_self_lt_mul_self (by norm_num) harb
      calc (9 : ℝ) / 10 * (9 / 10) < |n.x| * |n.x| := this
        _ = n.x * n.x := abs_mul_abs_self n.x
    have h1 : dot3 n (⟨0, 1, 0⟩ : Vec3) = n.y := by unfold dot3; ring
    have h2 : dot3 (⟨0, 1, 0⟩ : Vec3) ⟨0, 1, 0⟩ = 1 := by unfold dot3; norm_num
    rw [h1, h2]
    unfold dot3 at hnn
    nlinarith [sq_nonneg n.z]
  · rw [if_neg harb, dot3_cross_self, hnn]
    rw [hx] at harb
    push_neg at harb
    have hx2 : n.x * n.x ≤ 9 / 10 * (9 / 10) := by
      calc n.x * n.x = |n.x| * |n.x| := (abs_mul_abs_self n.x).symm
        _ ≤ 9 / 10 * (9 / 10) := by
          apply mul_le_mul harb harb (abs_nonneg n.x) (by norm_num)
    have h1 : dot3 n (⟨1, 0, 0⟩ : Vec3) = n.x := by unfold dot3; ring
    have h2 : dot3 (⟨1, 0, 0⟩ : Vec3) ⟨1, 0, 0⟩ = 1 := by unfold dot3; norm_num
    rw [h1, h2]
    nlinarith

/-- Per-vertex correctness of the post-pass: for a unit normal and an
accumulated tangent above the validity threshold, the returned tangent is
a unit vector exactly orthogonal to the normal. -/
theorem tangent_post_unit_orth (t n : Vec3) (hn : norm3 n = 1) (ht : tangent_eps < norm3 t) :
    norm3 (tangent_post t n) = 1 ∧ dot3 (tangent_post t n) n = 0 := by
  have hnn : dot3 n n = 1 := dot3_self_eq_one_of_norm n hn
  rw [tangent_post_eq, if_pos ht]
  set tn := vdiv t (norm3 t) with htn
  set proj := vsub tn (smul3 (dot3 tn n) n) with hproj
  have horth : dot3 proj n = 0 := proj_orth tn n hnn
  by_cases hp : tangent_eps < norm3 proj
  · rw [if_pos hp]
    constructor
    · exact norm3_self_div proj (lt_trans tangent_eps_pos hp)
    · rw [dot3_vdiv, horth]
      ring
  · rw [if_neg hp]
    have hcpos : 0 < norm3 (cross3 n
        (if (9 : ℝ) / 10 < |dot3 n ⟨1, 0, 0⟩| then ⟨0, 1, 0⟩ else ⟨1, 0, 0⟩)) := by
      unfold norm3
      rw [Real.sqrt_pos]
      exact fallback_cross_pos n hnn
    constructor
    · exact norm3_self_div _ hcpos
    · rw [dot3_vdiv, dot3_cross_left]
      ring

/-- C4: every vertex whose accumulated tangent exceeds the 1e-8 length
threshold receives from compute_tangents a unit tangent whose dot product
with the (unit) vertex normal is zero, hence within 1e-5 of zero. -/
theorem c4_tangent_unit_orthogonal (vertices : List Vec3) (faces : List (ℕ × ℕ × ℕ))
    (uvs : List (ℝ × ℝ)) (normals : List Vec3) (k : ℕ) (hk : k < vertices.length)
    (hn : norm3 (normals.getD k vzero) = 1)
    (hacc : tangent_eps < norm3 ((accumulate_tangents vertices uvs faces).1.getD k vzero)) :
    norm3 ((compute_tangents vertices faces uvs normals).getD k vzero) = 1 ∧
    |dot3 ((compute_tangents vertices faces uvs normals).getD k vzero)
      (normals.getD k vzero)| ≤ 1 / 100000 := by
  have hres : (compute_tangents vertices faces uvs normals).getD k vzero
      = tangent_post ((accumulate_tangents vertices uvs faces).1.getD k vzero)
          (normals.getD k vzero) := by
    unfold compute_tangents
    exact getD_map_range _ _ hk
  rw [hres]
  obtain ⟨h1, h2⟩ := tangent_post_unit_orth _ _ hn hacc
  refine ⟨h1, ?_⟩
  rw [h2]
  norm_num

/-- Concrete right-triangle input used by the C4 witness. -/
noncomputable def triV : List Vec3 := [⟨0, 0, 0⟩, ⟨1, 0, 0⟩, ⟨0, 0, 1⟩]

/-- UV coordinates of the witness triangle. -/
noncomputable def triUV : List (ℝ × ℝ) := [(0, 0), (1, 0), (0, 1)]

theorem tri_acc_eval :
    (accumulate_tangents triV triUV [(0, 1, 2)]).1 = [⟨1, 0, 0⟩, ⟨1, 0, 0⟩, ⟨1, 0, 0⟩] := by
  unfold accumulate_tangents
  rw [List.foldl_cons, List.foldl_nil]
  unfold tangent_step
  rw [if_neg (by norm_num [triUV, tangent_eps])]
  show (add_at (add_at (add_at [vzero, vzero, vzero] 0 _) 1 _) 2 _) = _
  unfold add_at
  norm_num [triV, triUV, vadd, vsub, smul3, vzero, Vec3.ext_iff']

theorem tri_normal_unit : norm3 ((List.replicate 3 (⟨0, 1, 0⟩ : Vec3)).getD 0 vzero) = 1 := by
  rw [show ((List.replicate 3 (⟨0, 1, 0⟩ : Vec3)).getD 0 vzero) = ⟨0, 1, 0⟩ from rfl]
  unfold norm3 dot3
  norm_num

theorem tri_acc_valid :
    tangent_eps < norm3 ((accumulate_tangents triV triUV [(0, 1, 2)]).1.getD 0 vzero) := by
  rw [tri_acc_eval]
  rw [show (([⟨1, 0, 0⟩, ⟨1, 0, 0⟩, ⟨1, 0, 0⟩] : List Vec3).getD 0 vzero) = ⟨1, 0, 0⟩ from rfl]
  unfold norm3 dot3 tangent_eps
  norm_num

/-- Witness for C4 at a single valid triangle with unit up normals. -/
theorem c4_tangent_unit_orthogonal_witness :
    0 < triV.length ∧
    norm3 ((List.replicate 3 (⟨0, 1, 0⟩ : Vec3)).getD 0 vzero) = 1 ∧
    tangent_eps < norm3 ((accumulate_tangents triV triUV [(0, 1, 2)]).1.getD 0 vzero) ∧
    (norm3 ((compute_tangents triV [(0, 1, 2)] triUV
        (List.replicate 3 ⟨0, 1, 0⟩)).getD 0 vzero) = 1 ∧
      |dot3 ((compute_tangents triV [(0, 1, 2)] triUV
          (List.replicate 3 ⟨0, 1, 0⟩)).getD 0 vzero)
        ((List.replicate 3 (⟨0, 1, 0⟩ : Vec3)).getD 0 vzero)| ≤ 1 / 100000) :=
  ⟨by norm_num [triV], tri_normal_unit, tri_acc_valid,
    c4_tangent_unit_orthogonal triV [(0, 1, 2)] triUV (List.replicate 3 ⟨0, 1, 0⟩) 0
      (by norm_num [triV]) tri_normal_unit tri_acc_valid⟩

/-- UV determinant of a triangle (the denominator of compute_tangents,
generate_model.py line 244). -/
noncomputable def uv_det (uvs : List (ℝ × ℝ)) (fc : ℕ × ℕ × ℕ) : ℝ :=
  let w1 := uvs.getD fc.1 (0, 0)
  let w2 := uvs.getD fc.2.1 (0, 0)
  let w3 := uvs.getD fc.2.2 (0, 0)
  (w2.1 - w1.1) * (w3.2 - w1.2) - (w3.1 - w1.1) * (w2.2 - w1.2)

/-- Lengyel tangent contributed by one non-degenerate triangle. -/
noncomputable def tri_tangent (vertices : List Vec3) (uvs : List (ℝ × ℝ))
    (fc : ℕ × ℕ × ℕ) : Vec3 :=
  smul3 (1 / uv_det uvs fc)
    (vsub
      (smul3 ((uvs.getD fc.2.2 (0, 0)).2 - (uvs.getD fc.1 (0, 0)).2)
        (vsub (vertices.getD fc.2.1 vzero) (vertices.getD fc.1 vzero)))
      (smul3 ((uvs.getD fc.2.1 (0, 0)).2 - (uvs.getD fc.1 (0, 0)).2)
        (vsub (vertices.getD fc.2.2 vzero) (vertices.getD fc.1 vzero))))

/-- Lengyel bitangent contributed by one non-degenerate triangle. -/
noncomputable def tri_bitangent (vertices : List Vec3) (uvs : List (ℝ × ℝ))
    (fc : ℕ × ℕ × ℕ) : Vec3 :=
  smul3 (1 / uv_det uvs fc)
    (vadd
      (smul3 (-((uvs.getD fc.2.2 (0, 0)).1 - (uvs.getD fc.1 (0, 0)).1))
        (vsub (vertices.getD fc.2.1 vzero) (vertices.getD fc.1 vzero)))
      (smul3 ((uvs.getD fc.2.1 (0, 0)).1 - (uvs.getD fc.1 (0, 0)).1)
        (vsub (vertices.getD fc.2.2 vzero) (vertices.getD fc.1 vzero))))

/-- Unfolded form of the triangle-loop body. -/
theorem tangent_step_eq (vertices : List Vec3) (uvs : List (ℝ × ℝ))
    (st : List Vec3 × List Vec3) (fc : ℕ × ℕ × ℕ) :
    tangent_step vertices uvs st fc =
      if |uv_det uvs fc| < tangent_eps then st
      else
        (add_at (add_at (add_at st.1 fc.1 (tri_tangent vertices uvs fc)) fc.2.1
            (tri_tangent vertices uvs fc)) fc.2.2 (tri_tangent vertices uvs fc),
         add_at (add_at (add_at st.2 fc.1 (tri_bitangent vertices uvs fc)) fc.2.1
            (tri_bitangent vertices uvs fc)) fc.2.2 (tri_bitangent vertices uvs fc)) := rfl

/-- A triangle whose UV determinant is below the 1e-8 threshold leaves the
accumulator state unchanged: its contribution to all three vertices is
skipped and no error is raised. -/
theorem tangent_step_skip (vertices : List Vec3) (uvs : List (ℝ × ℝ))
    (st : List Vec3 × List Vec3) (fc : ℕ × ℕ × ℕ)
    (hdeg : |uv_det uvs fc| < tangent_eps) :
    tangent_step vertices uvs st fc = st := by
  rw [tangent_step_eq, if_pos hdeg]

/-- Amended C5: a triangle with |uv determinant| < 1e-8 is skipped without
an error - its contribution to all three of its vertices is dropped and
the fold proceeds over the remaining triangles - but nothing records the
skip: the accumulated tangents, the returned tangents and the complete
log output of compute_tangents are identical to those of the same run
with the degenerate triangle removed. -/
theorem c5_degenerate_skip_unrecorded (vertices : List Vec3) (uvs : List (ℝ × ℝ))
    (pre post : List (ℕ × ℕ × ℕ)) (fc : ℕ × ℕ × ℕ) (normals : List Vec3)
    (hdeg : |uv_det uvs fc| < tangent_eps) :
    accumulate_tangents vertices uvs (pre ++ fc :: post)
      = accumulate_tangents vertices uvs (pre ++ post) ∧
    compute_tangents vertices (pre ++ fc :: post) uvs normals
      = compute_tangents vertices (pre ++ post) uvs normals ∧
    compute_tangents_logs vertices uvs (pre ++ fc :: post)
      = compute_tangents_logs vertices uvs (pre ++ post) := by
  have hacc : accumulate_tangents vertices uvs (pre ++ fc :: post)
      = accumulate_tangents vertices uvs (pre ++ post) := by
    unfold accumulate_tangents
    rw [List.foldl_append, List.foldl_append, List.foldl_cons,
      tangent_step_skip vertices uvs _ fc hdeg]
  refine ⟨hacc, ?_, ?_⟩
  · unfold compute_tangents
    rw [hacc]
  · unfold compute_tangents_logs valid_tangent_count
    rw [hacc]

/-- Witness for C5 (amended): the triangle (0, 1, 1) has two identical UV
corners, hence determinant 0. -/
theorem c5_degenerate_skip_unrecorded_witness :
    |uv_det triUV (0, 1, 1)| < tangent_eps ∧
    (accumulate_tangents triV triUV ([(0, 1, 2)] ++ (0, 1, 1) :: [])
      = accumulate_tangents triV triUV ([(0, 1, 2)] ++ []) ∧
    compute_tangents triV ([(0, 1, 2)] ++ (0, 1, 1) :: []) triUV (List.replicate 3 ⟨0, 1, 0⟩)
      = compute_tangents triV ([(0, 1, 2)] ++ []) triUV (List.replicate 3 ⟨0, 1, 0⟩) ∧
    compute_tangents_logs triV triUV ([(0, 1, 2)] ++ (0, 1, 1) :: [])
      = compute_tangents_logs triV triUV ([(0, 1, 2)] ++ [])) :=
  ⟨by norm_num [uv_det, triUV, tangent_eps],
    c5_degenerate_skip_unrecorded triV triUV [(0, 1, 2)] [] (0, 1, 1)
      (List.replicate 3 ⟨0, 1, 0⟩) (by norm_num [uv_det, triUV, tangent_eps])⟩

/-- Counterexample for the recording part of C5: a run containing the
degenerate triangle (0, 1, 1) is observationally identical - same
returned tangents and same log lines - to the run without it, so the
skipped triangle is not recorded anywhere. -/
theorem c5_counterexample :
    compute_tangents triV [(0, 1, 2), (0, 1, 1)] triUV (List.replicate 3 ⟨0, 1, 0⟩)
      = compute_tangents triV [(0, 1, 2)] triUV (List.replicate 3 ⟨0, 1, 0⟩) ∧
    compute_tangents_logs triV triUV [(0, 1, 2), (0, 1, 1)]
      = compute_tangents_logs triV triUV [(0, 1, 2)] ∧
    ([(0, 1, 2), (0, 1, 1)] : List (ℕ × ℕ × ℕ)) ≠ [(0, 1, 2)] := by
  have hdeg : |uv_det triUV (0, 1, 1)| < tangent_eps := by
    norm_num [uv_det, triUV, tangent_eps]
  have hacc : accumulate_tangents triV triUV [(0, 1, 2), (0, 1, 1)]
      = accumulate_tangents triV triUV [(0, 1, 2)] := by
    unfold accumulate_tangents
    rw [List.foldl_cons, List.foldl_cons, List.foldl_nil, List.foldl_cons, List.foldl_nil,
      tangent_step_skip triV triUV _ (0, 1, 1) hdeg]
  refine ⟨?_, ?_, by simp⟩
  · unfold compute_tangents
    rw [hacc]
  · unfold compute_tangents_logs valid_tangent_count
    rw [hacc]

/-- Amended C10: a vertex whose accumulated tangent has length at most
1e-8 is passed through the post-pass unchanged: compute_tangents returns
the raw accumulated vector for it (exactly zero precisely when nothing
was accumulated, e.g. a vertex touched only by skipped triangles or by no
triangle), applying neither the normalization nor the
arbitrary-perpendicular fallback. -/
theorem c10_invalid_tangent_passthrough (vertices : List Vec3) (faces : List (ℕ × ℕ × ℕ))
    (uvs : List (ℝ × ℝ)) (normals : List Vec3) (k : ℕ) (hk : k < vertices.length)
    (hsmall : norm3 ((accumulate_tangents vertices uvs faces).1.getD k vzero) ≤ tangent_eps) :
    (compute_tangents vertices faces uvs normals).getD k vzero
      = (accumulate_tangents vertices uvs faces).1.getD k vzero := by
  have hres : (compute_tangents vertices faces uvs normals).getD k vzero
      = tangent_post ((accumulate_tangents vertices uvs faces).1.getD k vzero)
          (normals.getD k vzero) := by
    unfold compute_tangents
    exact getD_map_range _ _ hk
  rw [hres, tangent_post_eq, if_neg (not_lt.mpr hsmall)]

/-- Tiny triangle whose tangent contribution has length 1e-9: below the
validity threshold but not zero. -/
noncomputable def tinyV : List Vec3 := [⟨0, 0, 0⟩, ⟨0, 0, 1⟩, ⟨1 / 1000000000, 0, 0⟩]

/-- UV coordinates of the tiny triangle (non-degenerate determinant -1). -/
noncomputable def tinyUV : List (ℝ × ℝ) := [(0, 0), (0, 1), (1, 0)]

theorem tiny_acc_eval :
    (accumulate_tangents tinyV tinyUV [(0, 1, 2)]).1
      = [⟨1 / 1000000000, 0, 0⟩, ⟨1 / 1000000000, 0, 0⟩, ⟨1 / 1000000000, 0, 0⟩] := by
  unfold accumulate_tangents
  rw [List.foldl_cons, List.foldl_nil]
  unfold tangent_step
  rw [if_neg (by norm_num [tinyUV, tangent_eps])]
  show (add_at (add_at (add_at [vzero, vzero, vzero] 0 _) 1 _) 2 _) = _
  unfold add_at
  norm_num [tinyV, tinyUV, vadd, vsub, smul3, vzero, Vec3.ext_iff']

theorem tiny_acc_small :
    norm3 ((accumulate_tangents tinyV tinyUV [(0, 1, 2)]).1.getD 0 vzero) ≤ tangent_eps := by
  rw [tiny_acc_eval]
  rw [show (([⟨1 / 1000000000, 0, 0⟩, ⟨1 / 1000000000, 0, 0⟩, ⟨1 / 1000000000, 0, 0⟩]
      : List Vec3).getD 0 vzero) = ⟨1 / 1000000000, 0, 0⟩ from rfl]
  unfold norm3 dot3
  rw [show ((1 : ℝ) / 1000000000 * (1 / 1000000000) + 0 * 0 + 0 * 0)
      = ((1 : ℝ) / 1000000000) ^ 2 by ring]
  rw [Real.sqrt_sq (by norm_num)]
  unfold tangent_eps
  norm_num

/-- Witness for C10 (amended) at the tiny triangle: the vertex passes
through unchanged. -/
theorem c10_invalid_tangent_passthrough_witness :
    0 < tinyV.length ∧
    norm3 ((accumulate_tangents tinyV tinyUV [(0, 1, 2)]).1.getD 0 vzero) ≤ tangent_eps ∧
    (compute_tangents tinyV [(0, 1, 2)] tinyUV (List.replicate 3 ⟨0, 1, 0⟩)).getD 0 vzero
      = (accumulate_tangents tinyV tinyUV [(0, 1, 2)]).1.getD 0 vzero :=
  ⟨by norm_num [tinyV], tiny_acc_small,
    c10_invalid_tangent_passthrough tinyV [(0, 1, 2)] tinyUV (List.replicate 3 ⟨0, 1, 0⟩) 0
      (by norm_num [tinyV]) tiny_acc_small⟩

/-- Counterexample for C10 as stated: the tiny triangle accumulates the
tangent (1e-9, 0, 0) at vertex 0 - length 1e-9, at most 1e-8 - yet
compute_tangents returns that nonzero vector, not the zero vector. -/
theorem c10_counterexample :
    norm3 ((accumulate_tangents tinyV tinyUV [(0, 1, 2)]).1.getD 0 vzero) ≤ tangent_eps ∧
    (compute_tangents tinyV [(0, 1, 2)] tinyUV (List.replicate 3 ⟨0, 1, 0⟩)).getD 0 vzero
      = ⟨1 / 1000000000, 0, 0⟩ ∧
    (⟨1 / 1000000000, 0, 0⟩ : Vec3) ≠ vzero := by
  refine ⟨tiny_acc_small, ?_, ?_⟩
  · have hres : (compute_tangents tinyV [(0, 1, 2)] tinyUV
        (List.replicate 3 ⟨0, 1, 0⟩)).getD 0 vzero
        = tangent_post ((accumulate_tangents tinyV tinyUV [(0, 1, 2)]).1.getD 0 vzero)
            ((List.replicate 3 (⟨0, 1, 0⟩ : Vec3)).getD 0 vzero) := by
      unfold compute_tangents
      exact getD_map_range _ _ (by norm_num [tinyV])
    rw [hres, tangent_post_eq, if_neg (not_lt.mpr tiny_acc_small), tiny_acc_eval]
    rfl
  · rw [Ne, Vec3.ext_iff']
    unfold vzero
    norm_num

/-
Claim C6 concerns the flat-field invariant: a constant 0.5 height field
and the subdivided plane.  On this grid every non-skipped triangle has UV
determinant whose exact value is 1/(S-1)^2 and contributes the same
tangent (W, 0, 0).  The running program stores UVs as float32 (line 135),
so the exact-arithmetic model is used only where the comparison of the
determinant against 1e-8 is insensitive to float32 rounding.  Each stored
UV component lies in [0, 1] and carries absolute rounding error at most
2^-25, the two difference factors of the determinant (the other two are
exact zeros, being differences of identical stored values) carry absolute
error at most about 2^-24, and the final product rounds with relative
error 2^-24, so the computed determinant differs from 1/(S-1)^2 by a
relative error of order (S-1) * 2^-24.  The invariant theorem below
therefore assumes S <= 1001, where 1/(S-1)^2 >= 1e-6 is two orders of
magnitude above the threshold (float32 perturbation about 1e-4 relative),
and the counterexample uses S = 100001, where every float32 determinant
is at most about 1.01e-10, two orders of magnitude below it; in both
regimes exact and float32 evaluation agree on every skip decision, while
for S near 10001 the outcome of individual comparisons depends on
float32 rounding and is outside this model.
-/

theorem grid_mod (S i j : ℕ) (hj : j < S) : (i * S + j) % S = j := by
  rw [Nat.add_comm, Nat.add_mul_mod_self_right]
  exact Nat.mod_eq_of_lt hj

theorem grid_div (S i j : ℕ) (hS : 0 < S) (hj : j < S) : (i * S + j) / S = i := by
  rw [Nat.add_comm, Nat.add_mul_div_right _ _ hS, Nat.div_eq_of_lt hj, Nat.zero_add]

theorem plane_uv_grid (S i j : ℕ) (hS : 0 < S) (hj : j < S) :
    plane_uv S (i * S + j) = ((j : ℝ) / ((S : ℝ) - 1), 1 - (i : ℝ) / ((S : ℝ) - 1)) := by
  unfold plane_uv
  rw [grid_mod S i j hj, grid_div S i j hS hj]

theorem plane_vertex_grid (width height : ℝ) (S i j : ℕ) (hS : 0 < S) (hj : j < S) :
    plane_vertex width height S (i * S + j)
      = ⟨-(width / 2) + width * (j : ℝ) / ((S : ℝ) - 1), 0,
         -(height / 2) + height * (i : ℝ) / ((S : ℝ) - 1)⟩ := by
  unfold plane_vertex
  rw [grid_mod S i j hj, grid_div S i j hS hj]

theorem sub_one_ne_zero_of_two_le {S : ℕ} (hS : 2 ≤ S) : ((S : ℝ) - 1) ≠ 0 := by
  have : (2 : ℝ) ≤ (S : ℝ) := by exact_mod_cast hS
  intro h
  nlinarith

theorem flat_face1_det (width height : ℝ) (S i j : ℕ) (hS : 2 ≤ S)
    (hi : i < S - 1) (hj : j < S - 1) :
    uv_det (create_plane_uvs S) (i * S + j, i * S + j + S, i * S + j + 1)
      = 1 / ((S : ℝ) - 1) ^ 2 ∧
    tri_tangent (create_plane_vertices width height S) (create_plane_uvs S)
      (i * S + j, i * S + j + S, i * S + j + 1) = ⟨width, 0, 0⟩ := by
  have hS0 : 0 < S := by omega
  have hbound := face_index_bound hS hi hj
  have ha : i * S + j < S * S := by omega
  have hb : i * S + j + S < S * S := by omega
  have hc : i * S + j + 1 < S * S := by omega
  have he0 : ((S : ℝ) - 1) ≠ 0 := sub_one_ne_zero_of_two_le hS
  have hUVa : (create_plane_uvs S).getD (i * S + j) (0, 0) = plane_uv S (i * S + j) := by
    unfold create_plane_uvs; exact getD_map_range _ _ ha
  have hUVb : (create_plane_uvs S).getD (i * S + j + S) (0, 0)
      = plane_uv S (i * S + j + S) := by
    unfold create_plane_uvs; exact getD_map_range _ _ hb
  have hUVc : (create_plane_uvs S).getD (i * S + j + 1) (0, 0)
      = plane_uv S (i * S + j + 1) := by
    unfold create_plane_uvs; exact getD_map_range _ _ hc
  have hVa : (create_plane_vertices width height S).getD (i * S + j) vzero
      = plane_vertex width height S (i * S + j) := by
    unfold create_plane_vertices; exact getD_map_range _ _ ha
  have hVb : (create_plane_vertices width height S).getD (i * S + j + S) vzero
      = plane_vertex width height S (i * S + j + S) := by
    unfold create_plane_vertices; exact getD_map_range _ _ hb
  have hVc : (create_plane_vertices width height S).getD (i * S + j + 1) vzero
      = plane_vertex width height S (i * S + j + 1) := by
    unfold create_plane_vertices; exact getD_map_range _ _ hc
  have hidxb : i * S + j + S = (i + 1) * S + j := by ring
  have hidxc : i * S + j + 1 = i * S + (j + 1) := by ring
  have huva := plane_uv_grid S i j hS0 (by omega)
  have huvb : plane_uv S (i * S + j + S)
      = (((j : ℕ) : ℝ) / ((S : ℝ) - 1), 1 - (((i + 1 : ℕ)) : ℝ) / ((S : ℝ) - 1)) := by
    rw [hidxb]; exact plane_uv_grid S (i + 1) j hS0 (by omega)
  have huvc : plane_uv S (i * S + j + 1)
      = ((((j + 1 : ℕ)) : ℝ) / ((S : ℝ) - 1), 1 - ((i : ℕ) : ℝ) / ((S : ℝ) - 1)) := by
    rw [hidxc]; exact plane_uv_grid S i (j + 1) hS0 (by omega)
  have hva := plane_vertex_grid width height S i j hS0 (by omega)
  have hvb : plane_vertex width height S (i * S + j + S)
      = ⟨-(width / 2) + width * (((j : ℕ)) : ℝ) / ((S : ℝ) - 1), 0,
         -(height / 2) + height * (((i + 1 : ℕ)) : ℝ) / ((S : ℝ) - 1)⟩ := by
    rw [hidxb]; exact plane_vertex_grid width height S (i + 1) j hS0 (by omega)
  have hvc : plane_vertex width height S (i * S + j + 1)
      = ⟨-(width / 2) + width * (((j + 1 : ℕ)) : ℝ) / ((S : ℝ) - 1), 0,
         -(height / 2) + height * (((i : ℕ)) : ℝ) / ((S : ℝ) - 1)⟩ := by
    rw [hidxc]; exact plane_vertex_grid width height S i (j + 1) hS0 (by omega)
  have hdet : uv_det (create_plane_uvs S) (i * S + j, i * S + j + S, i * S + j + 1)
      = 1 / ((S : ℝ) - 1) ^ 2 := by
    unfold uv_det
    dsimp only
    rw [hUVa, hUVb, hUVc, huva, huvb, huvc]
    dsimp only
    push_cast
    field_simp
    ring
  refine ⟨hdet, ?_⟩
  unfold tri_tangent
  dsimp only
  rw [hdet, hUVa, hUVb, hUVc, huva, huvb, huvc, hVa, hVb, hVc, hva, hvb, hvc]
  simp only [smul3, vsub]
  rw [Vec3.ext_iff']
  dsimp only
  push_cast
  refine ⟨?_, ?_, ?_⟩ <;> field_simp <;> ring

theorem flat_face2_det (width height : ℝ) (S i j : ℕ) (hS : 2 ≤ S)
    (hi : i < S - 1) (hj : j < S - 1) :
    uv_det (create_plane_uvs S) (i * S + j + 1, i * S + j + S, i * S + j + S + 1)
      = 1 / ((S : ℝ) - 1) ^ 2 ∧
    tri_tangent (create_plane_vertices width height S) (create_plane_uvs S)
      (i * S + j + 1, i * S + j + S, i * S + j + S + 1) = ⟨width, 0, 0⟩ := by
  have hS0 : 0 < S := by omega
  have hbound := face_index_bound hS hi hj
  have ha : i * S + j + 1 < S * S := by omega
  have hb : i * S + j + S < S * S := by omega
  have hc : i * S + j + S + 1 < S * S := by omega
  have he0 : ((S : ℝ) - 1) ≠ 0 := sub_one_ne_zero_of_two_le hS
  have hUVa : (create_plane_uvs S).getD (i * S + j + 1) (0, 0)
      = plane_uv S (i * S + j + 1) := by
    unfold create_plane_uvs; exact getD_map_range _ _ ha
  have hUVb : (create_plane_uvs S).getD (i * S + j + S) (0, 0)
      = plane_uv S (i * S + j + S) := by
    unfold create_plane_uvs; exact getD_map_range _ _ hb
  have hUVc : (create_plane_uvs S).getD (i * S + j + S + 1) (0, 0)
      = plane_uv S (i * S + j + S + 1) := by
    unfold create_plane_uvs; exact getD_map_range _ _ hc
  have hVa : (create_plane_vertices width height S).getD (i * S + j + 1) vzero
      = plane_vertex width height S (i * S + j + 1) := by
    unfold create_plane_vertices; exact getD_map_range _ _ ha
  have hVb : (create_plane_vertices width height S).getD (i * S + j + S) vzero
      = plane_vertex width height S (i * S + j + S) := by
    unfold create_plane_vertices; exact getD_map_range _ _ hb
  have hVc : (create_plane_vertices width height S).getD (i * S + j + S + 1) vzero
      = plane_vertex width height S (i * S + j + S + 1) := by
    unfold create_plane_vertices; exact getD_map_range _ _ hc
  have hidxa : i * S + j + 1 = i * S + (j + 1) := by ring
  have hidxb : i * S + j + S = (i + 1) * S + j := by ring
  have hidxc : i * S + j + S + 1 = (i + 1) * S + (j + 1) := by ring
  have huva : plane_uv S (i * S + j + 1)
      = ((((j + 1 : ℕ)) : ℝ) / ((S : ℝ) - 1), 1 - ((i : ℕ) : ℝ) / ((S : ℝ) - 1)) := by
    rw [hidxa]; exact plane_uv_grid S i (j + 1) hS0 (by omega)
  have huvb : plane_uv S (i * S + j + S)
      = (((j : ℕ) : ℝ) / ((S : ℝ) - 1), 1 - (((i + 1 : ℕ)) : ℝ) / ((S : ℝ) - 1)) := by
    rw [hidxb]; exact plane_uv_grid S (i + 1) j hS0 (by omega)
  have huvc : plane_uv S (i * S + j + S + 1)
      = ((((j + 1 : ℕ)) : ℝ) / ((S : ℝ) - 1), 1 - (((i + 1 : ℕ)) : ℝ) / ((S : ℝ) - 1)) := by
    rw [hidxc]; exact plane_uv_grid S (i + 1) (j + 1) hS0 (by omega)
  have hva : plane_vertex width height S (i * S + j + 1)
      = ⟨-(width / 2) + width * (((j + 1 : ℕ)) : ℝ) / ((S : ℝ) - 1), 0,
         -(height / 2) + height * (((i : ℕ)) : ℝ) / ((S : ℝ) - 1)⟩ := by
    rw [hidxa]; exact plane_vertex_grid width height S i (j + 1) hS0 (by omega)
  have hvb : plane_vertex width height S (i * S + j + S)
      = ⟨-(width / 2) + width * (((j : ℕ)) : ℝ) / ((S : ℝ) - 1), 0,
         -(height / 2) + height * (((i + 1 : ℕ)) : ℝ) / ((S : ℝ) - 1)⟩ := by
    rw [hidxb]; exact plane_vertex_grid width height S (i + 1) j hS0 (by omega)
  have hvc : plane_vertex width height S (i * S + j + S + 1)
      = ⟨-(width / 2) + width * (((j + 1 : ℕ)) : ℝ) / ((S : ℝ) - 1), 0,
         -(height / 2) + height * (((i + 1 : ℕ)) : ℝ) / ((S : ℝ) - 1)⟩ := by
    rw [hidxc]; exact plane_vertex_grid width height S (i + 1) (j + 1) hS0 (by omega)
  have hdet : uv_det (create_plane_uvs S) (i * S + j + 1, i * S + j + S, i * S + j + S + 1)
      = 1 / ((S : ℝ) - 1) ^ 2 := by
    unfold uv_det
    dsimp only
    rw [hUVa, hUVb, hUVc, huva, huvb, huvc]
    dsimp only
    push_cast
    field_simp
    ring
  refine ⟨hdet, ?_⟩
  unfold tri_tangent
  dsimp only
  rw [hdet, hUVa, hUVb, hUVc, huva, huvb, huvc, hVa, hVb, hVc, hva, hvb, hvc]
  simp only [smul3, vsub]
  rw [Vec3.ext_iff']
  dsimp only
  push_cast
  refine ⟨?_, ?_, ?_⟩ <;> field_simp <;> ring

/-- On the subdivided plane every emitted triangle has UV determinant
1/(S-1)^2 and Lengyel tangent (width, 0, 0). -/
theorem flat_face_det_tangent (width height : ℝ) (S : ℕ) (hS : 2 ≤ S) (fc : ℕ × ℕ × ℕ)
    (hfc : fc ∈ create_plane_faces S) :
    uv_det (create_plane_uvs S) fc = 1 / ((S : ℝ) - 1) ^ 2 ∧
    tri_tangent (create_plane_vertices width height S) (create_plane_uvs S) fc
      = ⟨width, 0, 0⟩ := by
  obtain ⟨i, j, hi, hj, hcase⟩ := mem_create_plane_faces hfc
  rcases hcase with h | h <;> subst h
  · exact flat_face1_det width height S i j hS hi hj
  · exact flat_face2_det width height S i j hS hi hj

theorem flat_det_not_small (S : ℕ) (hS : 2 ≤ S) (hSmall : S ≤ 10001) :
    ¬ |1 / ((S : ℝ) - 1) ^ 2| < tangent_eps := by
  have h1 : (1 : ℝ) ≤ (S : ℝ) - 1 := by
    have : (2 : ℝ) ≤ (S : ℝ) := by exact_mod_cast hS
    linarith
  have h2 : (S : ℝ) - 1 ≤ 10000 := by
    have : (S : ℝ) ≤ 10001 := by exact_mod_cast hSmall
    linarith
  have hpos : (0 : ℝ) < ((S : ℝ) - 1) ^ 2 := by positivity
  rw [abs_of_pos (by positivity), not_lt]
  unfold tangent_eps
  rw [div_le_div_iff (by norm_num) hpos]
  nlinarith

theorem flat_det_small (S : ℕ) (hBig : 10002 ≤ S) :
    |1 / ((S : ℝ) - 1) ^ 2| < tangent_eps := by
  have h1 : (10001 : ℝ) ≤ (S : ℝ) - 1 := by
    have : (10002 : ℝ) ≤ (S : ℝ) := by exact_mod_cast hBig
    linarith
  have hpos : (0 : ℝ) < ((S : ℝ) - 1) ^ 2 := by positivity
  rw [abs_of_pos (by positivity)]
  unfold tangent_eps
  rw [div_lt_div_iff hpos (by norm_num)]
  nlinarith

/-- Number of times vertex k occurs among the three corners of a face. -/
def face_occ (k : ℕ) (fc : ℕ × ℕ × ℕ) : ℕ :=
  (if fc.1 = k then 1 else 0) + (if fc.2.1 = k then 1 else 0) + (if fc.2.2 = k then 1 else 0)

/-- Natural multiple of a vector. -/
noncomputable def nsmul3 (m : ℕ) (v : Vec3) : Vec3 := ⟨(m : ℝ) * v.x, (m : ℝ) * v.y, (m : ℝ) * v.z⟩

theorem add_at_length (l : List Vec3) (i : ℕ) (v : Vec3) :
    (add_at l i v).length = l.length := by
  unfold add_at
  rw [List.length_set]

theorem add_at_getD (l : List Vec3) (i k : ℕ) (v : Vec3) (hk : k < l.length) :
    (add_at l i v).getD k vzero
      = if i = k then vadd (l.getD k vzero) v else l.getD k vzero := by
  unfold add_at
  by_cases h : i = k
  · subst h
    rw [if_pos rfl, List.getD_eq_getElem?_getD, List.getElem?_set_self hk,
      List.getD_eq_getElem?_getD, List.getElem?_eq_getElem hk]
    rfl
  · rw [if_neg h, List.getD_eq_getElem?_getD, List.getElem?_set_ne h,
      List.getD_eq_getElem?_getD]

theorem add_at3_getD (l : List Vec3) (fc : ℕ × ℕ × ℕ) (v : Vec3) (k : ℕ)
    (hk : k < l.length) :
    (add_at (add_at (add_at l fc.1 v) fc.2.1 v) fc.2.2 v).getD k vzero
      = vadd (l.getD k vzero) (nsmul3 (face_occ k fc) v) := by
  rw [add_at_getD _ _ _ _ (by rw [add_at_length, add_at_length]; exact hk),
    add_at_getD _ _ _ _ (by rw [add_at_length]; exact hk),
    add_at_getD _ _ _ _ hk]
  unfold face_occ nsmul3 vadd
  by_cases h1 : fc.1 = k <;> by_cases h2 : fc.2.1 = k <;> by_cases h3 : fc.2.2 = k <;>
    simp only [h1, h2, h3, if_pos, if_neg, if_true, if_false] <;>
    rw [Vec3.ext_iff'] <;>
    refine ⟨?_, ?_, ?_⟩ <;> dsimp only <;> push_cast <;> ring

theorem vadd_nsmul3_zero (x v : Vec3) : vadd x (nsmul3 0 v) = x := by
  unfold vadd nsmul3
  rw [Vec3.ext_iff']
  refine ⟨?_, ?_, ?_⟩ <;> dsimp only <;> push_cast <;> ring

theorem vadd_vadd_nsmul3 (x v : Vec3) (m m' : ℕ) :
    vadd (vadd x (nsmul3 m v)) (nsmul3 m' v) = vadd x (nsmul3 (m + m') v) := by
  unfold vadd nsmul3
  rw [Vec3.ext_iff']
  refine ⟨?_, ?_, ?_⟩ <;> dsimp only <;> push_cast <;> ring

/-- Accumulation invariant on the flat grid: after folding any sublist of
the plane faces, each vertex accumulator holds (number of processed
triangles containing it) times the common tangent (width, 0, 0). -/
theorem flat_fold_invariant (width height : ℝ) (S : ℕ) (hS : 2 ≤ S) (hSmall : S ≤ 10001) :
    ∀ fl : List (ℕ × ℕ × ℕ), (∀ fc ∈ fl, fc ∈ create_plane_faces S) →
    ∀ st : List Vec3 × List Vec3, st.1.length = S * S →
      (List.foldl (tangent_step (create_plane_vertices width height S)
          (create_plane_uvs S)) st fl).1.length = S * S ∧
      ∀ k, k < S * S →
        (List.foldl (tangent_step (create_plane_vertices width height S)
            (create_plane_uvs S)) st fl).1.getD k vzero
          = vadd (st.1.getD k vzero)
              (nsmul3 ((fl.map (face_occ k)).sum) ⟨width, 0, 0⟩) := by
  intro fl
  induction fl with
  | nil =>
    intro _ st hlen
    refine ⟨hlen, fun k _ => ?_⟩
    rw [List.foldl_nil, List.map_nil, List.sum_nil, vadd_nsmul3_zero]
  | cons fc fl' ih =>
    intro hmem st hlen
    have hfc : fc ∈ create_plane_faces S := hmem fc (List.mem_cons_self fc fl')
    have hdet := (flat_face_det_tangent width height S hS fc hfc).1
    have htan := (flat_face_det_tangent width height S hS fc hfc).2
    have hnot : ¬ |uv_det (create_plane_uvs S) fc| < tangent_eps := by
      rw [hdet]
      exact flat_det_not_small S hS hSmall
    have hstep : tangent_step (create_plane_vertices width height S)
        (create_plane_uvs S) st fc
        = (add_at (add_at (add_at st.1 fc.1 ⟨width, 0, 0⟩) fc.2.1 ⟨width, 0, 0⟩) fc.2.2
            ⟨width, 0, 0⟩,
           add_at (add_at (add_at st.2 fc.1
              (tri_bitangent (create_plane_vertices width height S)
                (create_plane_uvs S) fc)) fc.2.1
              (tri_bitangent (create_plane_vertices width height S)
                (create_plane_uvs S) fc)) fc.2.2
              (tri_bitangent (create_plane_vertices width height S)
                (create_plane_uvs S) fc)) := by
      rw [tangent_step_eq, if_neg hnot, htan]
    rw [List.foldl_cons, hstep]
    have hlen' : (add_at (add_at (add_at st.1 fc.1 ⟨width, 0, 0⟩) fc.2.1 ⟨width, 0, 0⟩)
        fc.2.2 ⟨width, 0, 0⟩).length = S * S := by
      rw [add_at_length, add_at_length, add_at_length]
      exact hlen
    have hmem' : ∀ g ∈ fl', g ∈ create_plane_faces S :=
      fun g hg => hmem g (List.mem_cons_of_mem fc hg)
    obtain ⟨ihlen, ihval⟩ := ih hmem'
      (add_at (add_at (add_at st.1 fc.1 ⟨width, 0, 0⟩) fc.2.1 ⟨width, 0, 0⟩) fc.2.2
        ⟨width, 0, 0⟩,
       add_at (add_at (add_at st.2 fc.1
          (tri_bitangent (create_plane_vertices width height S)
            (create_plane_uvs S) fc)) fc.2.1
          (tri_bitangent (create_plane_vertices width height S)
            (create_plane_uvs S) fc)) fc.2.2
          (tri_bitangent (create_plane_vertices width height S)
            (create_plane_uvs S) fc))
      hlen'
    refine ⟨ihlen, fun k hk => ?_⟩
    rw [ihval k hk]
    show vadd ((add_at (add_at (add_at st.1 fc.1 ⟨width, 0, 0⟩) fc.2.1 ⟨width, 0, 0⟩)
        fc.2.2 ⟨width, 0, 0⟩).getD k vzero) _ = _
    rw [add_at3_getD st.1 fc ⟨width, 0, 0⟩ k (by rw [hlen]; exact hk)]
    rw [vadd_vadd_nsmul3, List.map_cons, List.sum_cons]

theorem quad_face_mem (S i j : ℕ) (hi : i < S - 1) (hj : j < S - 1) :
    (i * S + j, i * S + j + S, i * S + j + 1) ∈ create_plane_faces S ∧
    (i * S + j + 1, i * S + j + S, i * S + j + S + 1) ∈ create_plane_faces S := by
  unfold create_plane_faces
  constructor <;>
    refine List.mem_flatMap.mpr ⟨i, List.mem_range.mpr hi,
      List.mem_flatMap.mpr ⟨j, List.mem_range.mpr hj, ?_⟩⟩ <;>
    simp [quad_faces]

theorem face_occ_pos {k : ℕ} {fc : ℕ × ℕ × ℕ}
    (h : fc.1 = k ∨ fc.2.1 = k ∨ fc.2.2 = k) : 1 ≤ face_occ k fc := by
  unfold face_occ
  rcases h with h | h | h <;> split_ifs <;> omega


/-- Every grid vertex lies in at least one emitted triangle (S at least 2). -/
theorem vertex_occ_sum_pos (S : ℕ) (hS : 2 ≤ S) (k : ℕ) (hk : k < S * S) :
    1 ≤ ((create_plane_faces S).map (face_occ k)).sum := by
  have hS0 : 0 < S := by omega
  have hdiv : k / S < S := by
    rw [Nat.div_lt_iff_lt_mul hS0]
    exact hk
  have hmod : k % S < S := Nat.mod_lt _ hS0
  have hprod : (S - 2) * S + S = (S - 1) * S := by
    rw [show S - 1 = S - 2 + 1 by omega, Nat.succ_mul]
  obtain ⟨i, j, hij, hi, hj⟩ : ∃ i j, i * S + j = k ∧ i < S ∧ j < S :=
    ⟨k / S, k % S, by rw [Nat.mul_comm]; exact Nat.div_add_mod k S, hdiv, hmod⟩
  have key : ∃ fc ∈ create_plane_faces S, fc.1 = k ∨ fc.2.1 = k ∨ fc.2.2 = k := by
    by_cases hii : i < S - 1
    · by_cases hjj : j < S - 1
      · exact ⟨_, (quad_face_mem S i j hii hjj).1, Or.inl hij⟩
      · have hj' : j = S - 1 := by omega
        refine ⟨_, (quad_face_mem S i (S - 2) hii (by omega)).1, Or.inr (Or.inr ?_)⟩
        show i * S + (S - 2) + 1 = k
        have harith : i * S + (S - 2) + 1 = i * S + (S - 1) := by
          rw [Nat.add_assoc]
          exact congrArg (i * S + ·) (by omega)
        have hk2 : i * S + (S - 1) = k := by
          rw [hj'] at hij
          exact hij
        exact harith.trans hk2
    · have hi' : i = S - 1 := by omega
      have hk3 : (S - 1) * S + j = k := by
        rw [← hi']
        exact hij
      by_cases hjj : j < S - 1
      · refine ⟨_, (quad_face_mem S (S - 2) j (by omega) hjj).1, Or.inr (Or.inl ?_)⟩
        show (S - 2) * S + j + S = k
        have harith : (S - 2) * S + j + S = (S - 1) * S + j := by
          rw [← hprod]
          ring
        exact harith.trans hk3
      · have hj' : j = S - 1 := by omega
        refine ⟨_, (quad_face_mem S (S - 2) (S - 2) (by omega) (by omega)).2,
          Or.inr (Or.inr ?_)⟩
        show (S - 2) * S + (S - 2) + S + 1 = k
        have h4 : (S - 2) * S + (S - 2) + S + 1 = (S - 2) * S + (S - 2 + S + 1) := by
          ring
        have h5 : (S - 1) * S + (S - 1) = (S - 2) * S + (S + (S - 1)) := by
          rw [← hprod]
          ring
        have hk4 : (S - 1) * S + (S - 1) = k := by
          rw [hj'] at hk3
          exact hk3
        rw [h4, ← hk4, h5]
        exact congrArg ((S - 2) * S + ·) (by omega)
  obtain ⟨fc, hmem, hcor⟩ := key
  calc 1 ≤ face_occ k fc := face_occ_pos hcor
    _ ≤ ((create_plane_faces S).map (face_occ k)).sum :=
      List.single_le_sum (fun x _ => Nat.zero_le x) _ (List.mem_map_of_mem _ hmem)

theorem vadd_vzero_left (v : Vec3) : vadd vzero v = v := by
  unfold vadd vzero
  rw [Vec3.ext_iff']
  refine ⟨?_, ?_, ?_⟩ <;> dsimp only <;> ring

theorem getD_replicate_lt {n k : ℕ} (a : Vec3) (hk : k < n) :
    (List.replicate n a).getD k vzero = a := by
  rw [List.getD_eq_getElem?_getD, List.getElem?_replicate, if_pos hk, Option.getD_some]

/-- Post-pass on a flat-grid accumulator: m copies of (W, 0, 0) with a
unit +Y normal normalize and orthogonalize to exactly (1, 0, 0). -/
theorem tangent_post_flat (m : ℕ) (W : ℝ) (hm : 1 ≤ m) (hW : tangent_eps < W) :
    tangent_post (nsmul3 m ⟨W, 0, 0⟩) ⟨0, 1, 0⟩ = ⟨1, 0, 0⟩ := by
  have hW0 : (0 : ℝ) < W := lt_trans tangent_eps_pos hW
  have hm0 : (1 : ℝ) ≤ (m : ℝ) := by exact_mod_cast hm
  have hmW : (0 : ℝ) < (m : ℝ) * W := mul_pos (by linarith) hW0
  have hnorm : norm3 (nsmul3 m ⟨W, 0, 0⟩) = (m : ℝ) * W := by
    unfold norm3 dot3 nsmul3
    dsimp only
    rw [show (m : ℝ) * W * ((m : ℝ) * W) + (m : ℝ) * 0 * ((m : ℝ) * 0)
        + (m : ℝ) * 0 * ((m : ℝ) * 0) = ((m : ℝ) * W) ^ 2 by ring]
    exact Real.sqrt_sq (le_of_lt hmW)
  have hcond : tangent_eps < norm3 (nsmul3 m ⟨W, 0, 0⟩) := by
    rw [hnorm]
    calc tangent_eps < W := hW
      _ ≤ (m : ℝ) * W := le_mul_of_one_le_left (le_of_lt hW0) hm0
  have htn : vdiv (nsmul3 m ⟨W, 0, 0⟩) ((m : ℝ) * W) = ⟨1, 0, 0⟩ := by
    unfold vdiv nsmul3
    rw [Vec3.ext_iff']
    refine ⟨?_, ?_, ?_⟩ <;> dsimp only
    · rw [div_self (ne_of_gt hmW)]
    · rw [mul_zero, zero_div]
    · rw [mul_zero, zero_div]
  have hproj : vsub ⟨1, 0, 0⟩ (smul3 (dot3 ⟨1, 0, 0⟩ ⟨0, 1, 0⟩) ⟨0, 1, 0⟩)
      = (⟨1, 0, 0⟩ : Vec3) := by
    unfold vsub smul3 dot3
    rw [Vec3.ext_iff']
    norm_num
  have hnorm1 : norm3 ⟨1, 0, 0⟩ = (1 : ℝ) := by
    unfold norm3 dot3
    norm_num
  have hinner : tangent_eps < (1 : ℝ) := by
    unfold tangent_eps
    norm_num
  have hfin : vdiv ⟨1, 0, 0⟩ 1 = (⟨1, 0, 0⟩ : Vec3) := by
    unfold vdiv
    rw [Vec3.ext_iff']
    norm_num
  rw [tangent_post_eq, if_pos hcond, hnorm, htn, hproj, hnorm1, if_pos hinner]
  exact hfin

theorem sample_const_half (hm : HeightField) (hw : 1 ≤ hm.width) (hh : 1 ≤ hm.height)
    (hval : ∀ y x, hm.val y x = 1 / 2) (u v : ℝ)
    (hu0 : 0 ≤ u) (hu1 : u ≤ 1) (hv0 : 0 ≤ v) (hv1 : v ≤ 1) :
    sample_height hm u v = some (1 / 2) := by
  obtain ⟨hx0, hx1⟩ := pixel_index_range hm.width u hw hu0 hu1
  obtain ⟨hy0, hy1⟩ := pixel_index_range hm.height v hh hv0 hv1
  unfold sample_height
  rw [np_index_of_range hy0 (by omega), np_index_of_range hx0 (by omega)]
  show some (hm.val _ _) = some (1 / 2)
  rw [hval]

theorem plane_uv_bounds (S k : ℕ) (hS : 2 ≤ S) (hk : k < S * S) :
    0 ≤ (plane_uv S k).1 ∧ (plane_uv S k).1 ≤ 1 ∧
    0 ≤ (plane_uv S k).2 ∧ (plane_uv S k).2 ≤ 1 := by
  have hS0 : 0 < S := by omega
  have hmod : k % S < S := Nat.mod_lt _ hS0
  have hdiv : k / S < S := by
    rw [Nat.div_lt_iff_lt_mul hS0]
    exact hk
  have he : (0 : ℝ) < (S : ℝ) - 1 := by
    have : (2 : ℝ) ≤ (S : ℝ) := by exact_mod_cast hS
    linarith
  have hcast : ((S - 1 : ℕ) : ℝ) = (S : ℝ) - 1 := by
    rw [Nat.cast_sub (by omega), Nat.cast_one]
  have hju : ((k % S : ℕ) : ℝ) ≤ (S : ℝ) - 1 := by
    rw [← hcast]
    exact_mod_cast Nat.le_sub_one_of_lt hmod
  have hiu : ((k / S : ℕ) : ℝ) ≤ (S : ℝ) - 1 := by
    rw [← hcast]
    exact_mod_cast Nat.le_sub_one_of_lt hdiv
  unfold plane_uv
  dsimp only
  refine ⟨div_nonneg (Nat.cast_nonneg _) (le_of_lt he), ?_, ?_, ?_⟩
  · rw [div_le_one he]
    exact hju
  · have h1 : ((k / S : ℕ) : ℝ) / ((S : ℝ) - 1) ≤ 1 := by
      rw [div_le_one he]
      exact hiu
    linarith
  · have h0 : (0 : ℝ) ≤ ((k / S : ℕ) : ℝ) / ((S : ℝ) - 1) :=
      div_nonneg (Nat.cast_nonneg _) (le_of_lt he)
    linarith

theorem displace_list_flat (hm : HeightField) (scale : ℝ) :
    ∀ l : List (Vec3 × (ℝ × ℝ)),
      (∀ p ∈ l, sample_height hm p.2.1 p.2.2 = some (1 / 2)) →
      displace_list hm scale l = some (l.map fun p => ⟨p.1.x, 0, p.1.z⟩)
  | [] => fun _ => rfl
  | p :: ps => fun h => by
    have hv : displace_vertex hm scale p.1 p.2 = some ⟨p.1.x, 0, p.1.z⟩ := by
      unfold displace_vertex
      rw [h p (List.mem_cons_self p ps)]
      show some (⟨p.1.x, (1 / 2 - 1 / 2) * scale, p.1.z⟩ : Vec3) = _
      rw [Option.some_inj, Vec3.ext_iff']
      norm_num
    unfold displace_list
    rw [hv, displace_list_flat hm scale ps (fun q hq => h q (List.mem_cons_of_mem p hq)),
      List.map_cons]

/-- Displacing the subdivided plane with a constant 0.5 height field
returns the plane unchanged: every displaced y is (0.5 - 0.5) * scale = 0
and the plane vertices already have y = 0. -/
theorem flat_displacement (W H scale : ℝ) (S : ℕ) (hm : HeightField) (hS : 2 ≤ S)
    (hw : 1 ≤ hm.width) (hh : 1 ≤ hm.height) (hval : ∀ y x, hm.val y x = 1 / 2) :
    apply_displacement (create_plane_vertices W H S) (create_plane_uvs S) hm scale
      = some (create_plane_vertices W H S) := by
  unfold apply_displacement
  have hsamp : ∀ p ∈ (create_plane_vertices W H S).zip (create_plane_uvs S),
      sample_height hm p.2.1 p.2.2 = some (1 / 2) := by
    rintro ⟨pv, pu⟩ hmem
    obtain ⟨_, hu⟩ := List.of_mem_zip hmem
    unfold create_plane_uvs at hu
    obtain ⟨k, hk, hku⟩ := List.mem_map.mp hu
    rw [List.mem_range] at hk
    obtain ⟨h1, h2, h3, h4⟩ := plane_uv_bounds S k hS hk
    rw [← hku] at *
    exact sample_const_half hm hw hh hval _ _ h1 h2 h3 h4
  have hlenV : (create_plane_vertices W H S).length = S * S := by
    unfold create_plane_vertices
    rw [List.length_map, List.length_range]
  have hlenU : (create_plane_uvs S).length = S * S := by
    unfold create_plane_uvs
    rw [List.length_map, List.length_range]
  rw [displace_list_flat hm scale _ hsamp, Option.some_inj]
  apply List.ext_getElem?
  intro n
  by_cases hn : n < S * S
  · rw [List.getElem?_map]
    have hzip : ((create_plane_vertices W H S).zip (create_plane_uvs S))[n]?
        = some (plane_vertex W H S n, plane_uv S n) := by
      apply List.getElem?_zip_eq_some.mpr
      constructor
      · unfold create_plane_vertices
        rw [List.getElem?_map, List.getElem?_range hn, Option.map_some']
      · unfold create_plane_uvs
        rw [List.getElem?_map, List.getElem?_range hn, Option.map_some']
    rw [hzip, Option.map_some']
    unfold create_plane_vertices
    rw [List.getElem?_map, List.getElem?_range hn, Option.map_some', Option.some_inj]
    show (⟨(plane_vertex W H S n).x, 0, (plane_vertex W H S n).z⟩ : Vec3)
      = plane_vertex W H S n
    unfold plane_vertex
    rfl
  · rw [List.getElem?_eq_none, List.getElem?_eq_none]
    · rw [hlenV]
      omega
    · rw [List.length_map, List.length_zip, hlenV, hlenU, Nat.min_self]
      omega

/-- On the flat grid, compute_tangents yields the same unit +U tangent
(1, 0, 0) at every vertex.  The hypothesis S <= 10001 is the range where
the exact determinant 1/(S-1)^2 stays at or above the skip threshold;
the claim-level theorem below restricts further to S <= 1001, where the
comparison is also robust to the float32 rounding of the program. -/
theorem flat_compute_tangents (W H : ℝ) (S : ℕ) (hS : 2 ≤ S) (hSmall : S ≤ 10001)
    (hW : tangent_eps < W) (k : ℕ) (hk : k < S * S) :
    (compute_tangents (create_plane_vertices W H S) (create_plane_faces S)
        (create_plane_uvs S) (List.replicate (S * S) ⟨0, 1, 0⟩)).getD k vzero
      = ⟨1, 0, 0⟩ := by
  have hlenV : (create_plane_vertices W H S).length = S * S := by
    unfold create_plane_vertices
    rw [List.length_map, List.length_range]
  have hres : (compute_tangents (create_plane_vertices W H S) (create_plane_faces S)
        (create_plane_uvs S) (List.replicate (S * S) ⟨0, 1, 0⟩)).getD k vzero
      = tangent_post
          ((accumulate_tangents (create_plane_vertices W H S) (create_plane_uvs S)
            (create_plane_faces S)).1.getD k vzero)
          ((List.replicate (S * S) (⟨0, 1, 0⟩ : Vec3)).getD k vzero) := by
    unfold compute_tangents
    exact getD_map_range _ _ (by rw [hlenV]; exact hk)
  rw [hres, getD_replicate_lt _ hk]
  obtain ⟨_, hval⟩ := flat_fold_invariant W H S hS hSmall (create_plane_faces S)
    (fun _ h => h)
    (List.replicate (create_plane_vertices W H S).length vzero,
     List.replicate (create_plane_vertices W H S).length vzero)
    (by rw [List.length_replicate]; exact hlenV)
  unfold accumulate_tangents
  rw [hval k hk]
  rw [show (List.replicate (create_plane_vertices W H S).length vzero,
      List.replicate (create_plane_vertices W H S).length vzero).1
      = List.replicate (create_plane_vertices W H S).length vzero from rfl,
    hlenV, getD_replicate_lt _ hk, vadd_vzero_left]
  exact tangent_post_flat _ W (vertex_occ_sum_pos S hS k hk) hW

/-- Amended C6: for a constant 0.5 height field over any S with
2 <= S <= 1001 and any physical width above 1e-8, displacement returns
the plane unchanged - every vertex keeps y = 0, a perfectly planar
mesh - and compute_tangents with the unit +Y vertex normals of that
plane returns the single unit tangent (1, 0, 0), aligned with the U
axis, at every vertex.  The bound S <= 1001 keeps every UV determinant
1/(S-1)^2 at least 1e-6, two orders of magnitude above the 1e-8 skip
threshold, so the skip comparisons are insensitive to the float32
rounding of the stored UVs and the exact model is faithful to the
program; for large S the determinants fall below the threshold instead
(see the counterexample), and near S = 10001 individual comparisons are
decided by float32 rounding.  The +Y unit normals are modelled from the
spec: the library-computed vertex normals of the flat plane after upward
orientation. -/
theorem c6_flat_field_invariant (W H scale : ℝ) (S : ℕ) (hm : HeightField)
    (hS : 2 ≤ S) (hSmall : S ≤ 1001) (hW : tangent_eps < W)
    (hw : 1 ≤ hm.width) (hh : 1 ≤ hm.height) (hval : ∀ y x, hm.val y x = 1 / 2) :
    apply_displacement (create_plane_vertices W H S) (create_plane_uvs S) hm scale
      = some (create_plane_vertices W H S) ∧
    (∀ vtx ∈ create_plane_vertices W H S, vtx.y = 0) ∧
    (∀ k, k < S * S →
      (compute_tangents (create_plane_vertices W H S) (create_plane_faces S)
          (create_plane_uvs S) (List.replicate (S * S) ⟨0, 1, 0⟩)).getD k vzero
        = ⟨1, 0, 0⟩) ∧
    norm3 ⟨1, 0, 0⟩ = 1 := by
  refine ⟨flat_displacement W H scale S hm hS hw hh hval, ?_,
    fun k hk => flat_compute_tangents W H S hS (by omega) hW k hk, ?_⟩
  · intro vtx hmem
    unfold create_plane_vertices at hmem
    obtain ⟨k, _, hkv⟩ := List.mem_map.mp hmem
    rw [← hkv]
    rfl
  · unfold norm3 dot3
    norm_num

/-- Witness for C6 (amended) at S = 2, a 2 x 3 carpet and a 1 x 1 constant
height field. -/
theorem c6_flat_field_invariant_witness :
    (2 ≤ 2 ∧ 2 ≤ 1001 ∧ tangent_eps < (2 : ℝ) ∧
      (1 : ℕ) ≤ 1 ∧ (∀ y x : ℕ, (⟨1, 1, fun _ _ => 1 / 2⟩ : HeightField).val y x = 1 / 2)) ∧
    (apply_displacement (create_plane_vertices 2 3 2) (create_plane_uvs 2)
        ⟨1, 1, fun _ _ => 1 / 2⟩ (1 / 50) = some (create_plane_vertices 2 3 2) ∧
      (∀ vtx ∈ create_plane_vertices 2 3 2, vtx.y = 0) ∧
      (∀ k, k < 2 * 2 →
        (compute_tangents (create_plane_vertices 2 3 2) (create_plane_faces 2)
            (create_plane_uvs 2) (List.replicate (2 * 2) ⟨0, 1, 0⟩)).getD k vzero
          = ⟨1, 0, 0⟩) ∧
      norm3 ⟨1, 0, 0⟩ = 1) :=
  ⟨⟨by norm_num, by norm_num, by unfold tangent_eps; norm_num, by norm_num, fun _ _ => rfl⟩,
    c6_flat_field_invariant 2 3 (1 / 50) 2 ⟨1, 1, fun _ _ => 1 / 2⟩ (by norm_num)
      (by norm_num) (by unfold tangent_eps; norm_num) (by norm_num) (by norm_num)
      (fun _ _ => rfl)⟩

theorem fold_skip_all (vertices : List Vec3) (uvs : List (ℝ × ℝ)) :
    ∀ fl : List (ℕ × ℕ × ℕ), (∀ fc ∈ fl, |uv_det uvs fc| < tangent_eps) →
    ∀ st : List Vec3 × List Vec3, List.foldl (tangent_step vertices uvs) st fl = st
  | [], _, _ => rfl
  | fc :: fl', h, st => by
    rw [List.foldl_cons, tangent_step_skip vertices uvs st fc (h fc (List.mem_cons_self fc fl'))]
    exact fold_skip_all vertices uvs fl' (fun g hg => h g (List.mem_cons_of_mem fc hg)) st

theorem norm3_vzero : norm3 vzero = 0 := by
  unfold norm3 dot3 vzero
  norm_num

set_option maxRecDepth 4000 in
/-- Counterexample for C6 as stated: at S = 100001 every triangle of the
flat grid is skipped and compute_tangents returns the zero vector - not
a unit tangent - at vertex 0 (and every vertex), so the claim over "any
subdivision count S >= 2" fails.  The input is chosen far from the skip
threshold so that the exact model is faithful to the float32 program:
the exact determinant of every triangle is 1/100000^2 = 1e-10, and in
float32 one of the determinant's two products always vanishes because
one of its factors is a difference of identical stored UV values, hence
exactly zero, while the surviving product has two factors of magnitude
at most about 1e-5 + 2^-24 each, so every computed determinant is at
most about 1.01e-10 - two orders of magnitude below 1e-8 - and the
program, like the model, skips every triangle. -/
theorem c6_counterexample :
    (compute_tangents (create_plane_vertices 2 3 100001) (create_plane_faces 100001)
        (create_plane_uvs 100001) (List.replicate (100001 * 100001) ⟨0, 1, 0⟩)).getD 0 vzero
      = vzero ∧
    norm3 vzero = 0 ∧
    ((0 : ℝ) ≠ 1) := by
  have hlenV : (create_plane_vertices 2 3 100001).length = 100001 * 100001 := by
    unfold create_plane_vertices
    rw [List.length_map, List.length_range]
  have hskip : ∀ fc ∈ create_plane_faces 100001,
      |uv_det (create_plane_uvs 100001) fc| < tangent_eps := by
    intro fc hfc
    rw [(flat_face_det_tangent 2 3 100001 (by norm_num) fc hfc).1]
    exact flat_det_small 100001 (by norm_num)
  have hres : (compute_tangents (create_plane_vertices 2 3 100001)
        (create_plane_faces 100001) (create_plane_uvs 100001)
        (List.replicate (100001 * 100001) ⟨0, 1, 0⟩)).getD 0 vzero
      = tangent_post
          ((accumulate_tangents (create_plane_vertices 2 3 100001) (create_plane_uvs 100001)
            (create_plane_faces 100001)).1.getD 0 vzero)
          ((List.replicate (100001 * 100001) (⟨0, 1, 0⟩ : Vec3)).getD 0 vzero) := by
    unfold compute_tangents
    exact getD_map_range _ _ (by rw [hlenV]; norm_num)
  have hacc : (accumulate_tangents (create_plane_vertices 2 3 100001)
      (create_plane_uvs 100001) (create_plane_faces 100001)).1.getD 0 vzero = vzero := by
    unfold accumulate_tangents
    rw [hlenV, fold_skip_all _ _ _ hskip]
    exact getD_replicate_lt _ (by norm_num)
  refine ⟨?_, norm3_vzero, by norm_num⟩
  rw [hres, hacc, tangent_post_eq,
    if_neg (by rw [norm3_vzero]; exact not_lt.mpr (le_of_lt tangent_eps_pos))]
